import Mathlib

/-!
Verification of the asm-to-pil lowering core (`romgen.rs` and
`vm_to_constrained.rs`): a shallow embedding of the two source files into
Lean, followed by theorems about the embedded functions.

Field elements are modelled as integers (`Int`); the claims under study do
not depend on modular arithmetic.  External AST types from the `ast` crate
(expressions, statements, machines) are modelled from the spec's data model
(§3); the functions of the two source files are translated directly from the
Rust source.
-/

namespace Powdr

/-- Field elements, modelled as integers. -/
abbrev F := Int

/-- Model of `parsed::UnaryOperator`: unary minus and the `'` (next-row) operator. -/
inductive UnaryOperator where
  | Minus
  | Next
  deriving DecidableEq, Repr

/-- Model of `parsed::BinaryOperator`. -/
inductive BinaryOperator where
  | Add | Sub | Mul | Div | Mod | Pow
  | BinaryAnd | BinaryXor | BinaryOr | ShiftLeft | ShiftRight
  | LogicalOr | LogicalAnd
  | Less | LessEqual | Equal | NotEqual | GreaterEqual | Greater
  deriving DecidableEq, Repr

/-- Rendering of a binary operator, used in diagnostics. -/
def BinaryOperator.render : BinaryOperator → String
  | .Add => "+" | .Sub => "-" | .Mul => "*" | .Div => "/" | .Mod => "%"
  | .Pow => "**"
  | .BinaryAnd => "&" | .BinaryXor => "^" | .BinaryOr => "|"
  | .ShiftLeft => "<<" | .ShiftRight => ">>"
  | .LogicalOr => "||" | .LogicalAnd => "&&"
  | .Less => "<" | .LessEqual => "<=" | .Equal => "==" | .NotEqual => "!="
  | .GreaterEqual => ">=" | .Greater => ">"

/-- Model of `parsed::Expression`, the PIL expression tree (spec §3).  References are
modelled as plain identifiers (the source calls `try_to_identifier` on
them).  `MatchExpression` arms are pairs of an optional pattern expression
(`none` = catch-all) and a value. -/
inductive Expr where
  | Number (n : F)
  | Reference (name : String)
  | PublicReference (name : String)
  | BinaryOperation (l : Expr) (op : BinaryOperator) (r : Expr)
  | UnaryOperation (op : UnaryOperator) (e : Expr)
  | FunctionCall (function : Expr) (arguments : List Expr)
  | FreeInput (e : Expr)
  | StringLiteral (s : String)
  | Tuple (items : List Expr)
  | ArrayLiteral (items : List Expr)
  | MatchExpression (scrutinee : Expr) (arms : List (Option Expr × Expr))
  | IfExpression (cond : Expr) (thenE : Expr) (elseE : Expr)
  | LambdaExpression (params : List String) (body : Expr)
  | IndexAccess (array : Expr) (index : Expr)

/-- Model of `build::direct_reference`. -/
def direct_reference (name : String) : Expr := .Reference name

/-- Model of `build::next_reference`. -/
def next_reference (name : String) : Expr := .UnaryOperation .Next (.Reference name)

instance : Add Expr := ⟨fun a b => .BinaryOperation a .Add b⟩

instance : Sub Expr := ⟨fun a b => .BinaryOperation a .Sub b⟩

instance : Mul Expr := ⟨fun a b => .BinaryOperation a .Mul b⟩

instance : Neg Expr := ⟨fun a => .UnaryOperation .Minus a⟩

/-- Modelled from the spec: the `ast` crate's `Sum` instance for
expressions (written `Σ` in the spec), folding the list with `+` and
returning the literal `0` for an empty list. -/
def exprSum : List Expr → Expr
  | [] => .Number 0
  | x :: xs => xs.foldl (fun a b => a + b) x

/-- Model of `asm_analysis::RegisterTy`. -/
inductive RegisterTy where
  | Pc
  | Assignment
  | ReadOnly
  | Write
  deriving DecidableEq, Repr

/-- Model of `asm_analysis::RegisterDeclarationStatement`. -/
structure RegisterDeclarationStatement where
  start : Nat
  name : String
  ty : RegisterTy

/-- Model of `parsed::asm::Param` (name, optional array index, optional type). -/
structure Param where
  name : String
  index : Option Nat
  ty : Option String

/-- Model of `parsed::asm::Params`: input params and optional output params.  The
`ParamList` wrappers are flattened into plain lists. -/
structure Params where
  inputs : List Param
  outputs : Option (List Param)

/-- Model of `asm_analysis::FunctionStatement` (spec §3).  Assignment left-hand
sides carry the target register name and the (optional, inferred)
assignment register. -/
inductive FunctionStatement where
  | Assignment (lhs_with_reg : List (String × Option String)) (rhs : Expr)
  | Instruction (instruction : String) (inputs : List Expr)
  | Label (name : String)
  | DebugDirective (d : String)
  | Return (values : List Expr)

/-- Model of `asm_analysis::Incompatible` (batch-splitting reasons). -/
inductive Incompatible where
  | Unimplemented
  | Label
  deriving DecidableEq, Repr

/-- Model of `asm_analysis::IncompatibleSet`. -/
abbrev IncompatibleSet := List Incompatible

/-- Model of `asm_analysis::Batch`: statements co-executable in one cycle plus the
reason the following batch had to start. -/
structure Batch where
  statements : List FunctionStatement
  reason : Option IncompatibleSet

/-- Model of `Batch::from(vec)`: a batch with no reason recorded. -/
def Batch.from_statements (s : List FunctionStatement) : Batch := ⟨s, none⟩

/-- Model of `Batch::reason` and `Batch::set_reason`. -/
def Batch.set_reason (b : Batch) (r : IncompatibleSet) : Batch := { b with reason := some r }

/-- Model of `asm_analysis::Rom`: an ordered list of batches. -/
structure Rom where
  statements : List Batch

/-- Model of `ArrayExpression` from the `ast` crate (modelled from the spec §4.2
phase F: fixed columns are value lists, repeated values, or pads). -/
inductive ArrayExpression where
  | Value (items : List Expr)
  | RepeatedValue (items : List Expr)
  | Concat (a : ArrayExpression) (b : ArrayExpression)

/-- Modelled from the spec: `ArrayExpression::pad_with_last`, padding a
value list by repeating its last element; `none` when the list is empty. -/
def padWithLast (items : List Expr) : Option ArrayExpression :=
  items.getLast?.map fun x => .Concat (.Value items) (.RepeatedValue [x])

/-- Modelled from the spec: `ArrayExpression::pad_with_zeroes`. -/
def padWithZeroes (items : List Expr) : ArrayExpression :=
  .Concat (.Value items) (.RepeatedValue [.Number 0])

/-- Model of `parsed::FunctionDefinition` (array definitions and prover queries). -/
inductive FunctionDefinition where
  | Array (a : ArrayExpression)
  | Query (e : Expr)

/-- Model of `parsed::SelectedExpressions`. -/
structure SelectedExpressions where
  selector : Option Expr
  expressions : List Expr

/-- Model of `parsed::PilStatement` (the variants used by the two source files). -/
inductive PilStatement where
  | PolynomialCommitDeclaration (start : Nat) (names : List String)
      (defn : Option FunctionDefinition)
  | PolynomialConstantDefinition (start : Nat) (name : String)
      (defn : FunctionDefinition)
  | PolynomialDefinition (start : Nat) (name : String) (e : Expr)
  | PolynomialIdentity (start : Nat) (e : Expr)
  | PlookupIdentity (start : Nat) (left : SelectedExpressions)
      (right : SelectedExpressions)
  | PermutationIdentity (start : Nat) (left : SelectedExpressions)
      (right : SelectedExpressions)

/-- Model of `parsed::asm::InstructionBody`: local PIL statements or an external
link target. -/
inductive InstructionBody where
  | Local (statements : List PilStatement)
  | CallableRef (target : String)

/-- Model of `asm_analysis::Instruction` (the `ast` one: params plus body). -/
structure InstructionAst where
  params : Params
  body : InstructionBody

/-- Model of `asm_analysis::InstructionDefinitionStatement`. -/
structure InstructionDefinitionStatement where
  start : Nat
  name : String
  instruction : InstructionAst

/-- Model of `asm_analysis::LinkDefinitionStatement`. -/
structure LinkDefinitionStatement where
  start : Nat
  flag : Expr
  params : Params
  target : String

/-- Model of `parsed::asm::OperationId`. -/
structure OperationId where
  id : Option F

/-- Model of `asm_analysis::OperationSymbol`. -/
structure OperationSymbol where
  start : Nat
  id : OperationId
  params : Params

/-- Model of `asm_analysis::FunctionSymbol`: params and a body made of ordered
batches of statements (batching already applied, spec §3/§6). -/
structure FunctionSymbol where
  params : Params
  body : List Batch

/-- Model of `asm_analysis::CallableSymbol`. -/
inductive CallableSymbol where
  | Function (f : FunctionSymbol)
  | Operation (o : OperationSymbol)

/-- Model of `asm_analysis::Machine` (spec §3).  The callable map is modelled as an
insertion-ordered association list, matching the spec's "iteration order
of the callable map". -/
structure Machine where
  registers : List RegisterDeclarationStatement
  instructions : List InstructionDefinitionStatement
  callable : List (String × CallableSymbol)
  pil : List PilStatement
  links : List LinkDefinitionStatement
  latch : Option String
  operation_id : Option String

/-- Model of `Machine::has_pc`. -/
def Machine.has_pc (m : Machine) : Bool :=
  m.registers.any fun r => r.ty = RegisterTy.Pc

/-- Model of `Machine::pc`: the name of the pc register, if any. -/
def Machine.pc (m : Machine) : Option String :=
  (m.registers.find? fun r => r.ty = RegisterTy.Pc).map fun r => r.name

/-- Model of `Machine::write_register_names`. -/
def Machine.write_register_names (m : Machine) : List String :=
  (m.registers.filter fun r => r.ty = RegisterTy.Write).map fun r => r.name

/-- Model of `Machine::functions`: the function symbols among the callables. -/
def Machine.functions (m : Machine) : List FunctionSymbol :=
  m.callable.filterMap fun c =>
    match c.2 with
    | .Function f => some f
    | .Operation _ => none

/-- Model of `Machine::operations`: the operation symbols among the callables. -/
def Machine.operations (m : Machine) : List OperationSymbol :=
  m.callable.filterMap fun c =>
    match c.2 with
    | .Function _ => none
    | .Operation o => some o

/-- Model of `Callable::is_only_functions`. -/
def Machine.is_only_functions (m : Machine) : Bool :=
  m.callable.all fun c =>
    match c.2 with
    | .Function _ => true
    | .Operation _ => false

/-- `Option::unwrap()`: panic on `None`. -/
def optUnwrap {A : Type} : Option A → Except String A
  | some a => Except.ok a
  | none => Except.error "called Option::unwrap() on a None value"

/-- Run-time assertion, mirroring Rust `assert!`: error when false. -/
def rtAssert (b : Bool) (msg : String) : Except String Unit :=
  if b then .ok () else .error msg

mutual

/-- Reference substitution over expressions: rewrite every bare
`Reference` leaf whose name is in the substitution map.  This is the
closure of `substitute_name_in_statement_expressions` (romgen.rs); the
same leaf-only rewrite is used post-order for the parameter columns in
`handle_instruction_def` (vm_to_constrained.rs) — for a rewrite touching
only childless `Reference` nodes, pre- and post-order visits coincide
with this direct traversal. -/
def substituteReferences (sub : List (String × String)) : Expr → Expr
  | .Number n => .Number n
  | .Reference r => .Reference ((sub.lookup r).getD r)
  | .PublicReference n => .PublicReference n
  | .BinaryOperation l op r =>
    .BinaryOperation (substituteReferences sub l) op (substituteReferences sub r)
  | .UnaryOperation op e => .UnaryOperation op (substituteReferences sub e)
  | .FunctionCall f args =>
    .FunctionCall (substituteReferences sub f) (substituteReferencesList sub args)
  | .FreeInput e => .FreeInput (substituteReferences sub e)
  | .StringLiteral s => .StringLiteral s
  | .Tuple items => .Tuple (substituteReferencesList sub items)
  | .ArrayLiteral items => .ArrayLiteral (substituteReferencesList sub items)
  | .MatchExpression s arms =>
    .MatchExpression (substituteReferences sub s) (substituteReferencesArms sub arms)
  | .IfExpression c t e =>
    .IfExpression (substituteReferences sub c) (substituteReferences sub t)
      (substituteReferences sub e)
  | .LambdaExpression ps b => .LambdaExpression ps (substituteReferences sub b)
  | .IndexAccess a i =>
    .IndexAccess (substituteReferences sub a) (substituteReferences sub i)

/-- Reference substitution over a list of expressions. -/
def substituteReferencesList (sub : List (String × String)) : List Expr → List Expr
  | [] => []
  | e :: t => substituteReferences sub e :: substituteReferencesList sub t

/-- Reference substitution over match arms. -/
def substituteReferencesArms (sub : List (String × String)) :
    List (Option Expr × Expr) → List (Option Expr × Expr)
  | [] => []
  | (none, v) :: t =>
    (none, substituteReferences sub v) :: substituteReferencesArms sub t
  | (some p, v) :: t =>
    (some (substituteReferences sub p), substituteReferences sub v) ::
      substituteReferencesArms sub t

end

/-- Application of a function to every expression of a statement; this is
the statement-level step of `pre_visit_expressions_mut`: only right-hand
sides, instruction inputs and return values are expressions — assignment
left-hand sides, statement names and labels carry no expressions. -/
def FunctionStatement.mapExpressions (f : Expr → Expr) :
    FunctionStatement → FunctionStatement
  | .Assignment lhs rhs => .Assignment lhs (f rhs)
  | .Instruction n inputs => .Instruction n (inputs.map f)
  | .Label n => .Label n
  | .DebugDirective d => .DebugDirective d
  | .Return vs => .Return (vs.map f)

/-- Translation of `substitute_name_in_statement_expressions`
(romgen.rs): substitute all visited columns inside expressions of `s`;
identifiers in the left-hand side of statements are not substituted. -/
def substitute_name_in_statement_expressions
    (s : FunctionStatement) (substitution : List (String × String)) :
    FunctionStatement :=
  s.mapExpressions (substituteReferences substitution)

/-- Translation of `pad_return_arguments` (romgen.rs): pad the arguments
in `return` statements with zeroes to match the maximum number of
outputs.  The infinite `repeat(0)` chain truncated by `take` is realised
by appending `output_count` zeroes before taking `output_count`. -/
def pad_return_arguments (s : FunctionStatement) (output_count : Nat) :
    FunctionStatement :=
  match s with
  | .Return vs =>
    .Return ((vs ++ List.replicate output_count (Expr.Number 0)).take output_count)
  | s => s

/-- Modelled from the spec: `common::input_at`, the hidden input register
names `_input_i`. -/
def input_at (i : Nat) : String := s!"_input_{i}"

/-- Modelled from the spec: `common::output_at`, the hidden output
assignment register names `_output_i`. -/
def output_at (i : Nat) : String := s!"_output_{i}"

/-- Modelled from the spec: `common::RESET_NAME`. -/
def RESET_NAME : String := "_reset"

/-- Modelled from the spec: `common::RETURN_NAME`. -/
def RETURN_NAME : String := "return"

/-- Modelled from the spec: `common::instruction_flag`, the flag column
name `instr_<name>`. -/
def instruction_flag (name : String) : String := s!"instr_{name}"

/-- Modelled from the spec: `common::return_instruction`, the synthetic
`return` instruction: one untyped input per output placeholder (the
converter's arity check forces exactly `output_count` inputs so that a
padded `return` call matches), no outputs, and a local body setting
`pc' = 0`. -/
def return_instruction (output_count : Nat) (pc_name : String) : InstructionAst :=
  { params :=
      { inputs := (List.range output_count).map fun i => ⟨output_at i, none, none⟩,
        outputs := none },
    body := .Local [.PolynomialIdentity 0 (next_reference pc_name - Expr.Number 0)] }

/-- Result of `parse_instruction_definition` on the `_jump_to_operation`
format string of romgen.rs: a no-param instruction whose body is the
identity for `pc' = <operation id column>`. -/
def jump_to_operation_instruction (pc : String) (op_col : String) :
    InstructionDefinitionStatement :=
  ⟨0, "_jump_to_operation",
    ⟨⟨[], none⟩, .Local [.PolynomialIdentity 0 (next_reference pc - direct_reference op_col)]⟩⟩

/-- Result of `parse_instruction_definition` on the `_reset` format
string of romgen.rs: one `w' = 0` identity per write register. -/
def reset_instruction (write_registers : List String) :
    InstructionDefinitionStatement :=
  ⟨0, RESET_NAME,
    ⟨⟨[], none⟩,
      .Local (write_registers.map fun w =>
        .PolynomialIdentity 0 (next_reference w - Expr.Number 0))⟩⟩

/-- Result of `parse_instruction_definition` on the `_loop` format string
of romgen.rs: the body is the identity for `pc' = pc`. -/
def loop_instruction (pc : String) : InstructionDefinitionStatement :=
  ⟨0, "_loop",
    ⟨⟨[], none⟩, .Local [.PolynomialIdentity 0 (next_reference pc - direct_reference pc)]⟩⟩

/-- Modelled from the spec: the statement produced by
`parse_pil_statement` on the `col witness _operation_id(i) query
("hint", <sink_id>)` format string of romgen.rs — a witness column
declaration with a prover-query hint defaulting free rows to the sink. -/
def operationIdColumn (name : String) (sink_id : F) : PilStatement :=
  .PolynomialCommitDeclaration 0 [name]
    (some (.Query (.LambdaExpression ["i"]
      (.Tuple [.StringLiteral "hint", .Number sink_id]))))

/-- The maximum output count over a machine's functions, as computed by
`generate_machine_rom`. -/
def maxOutputCount (m : Machine) : Nat :=
  (m.functions.map fun f => (f.params.outputs.map List.length).getD 0).max?.getD 0

/-- The dispatcher prologue of the ROM: the `_start` label with `_reset`
(ended by `Unimplemented`) followed by `_jump_to_operation` (ended by
`Label`). -/
def dispatcherRom : List Batch :=
  [(Batch.from_statements
      [.Label "_start", .Instruction RESET_NAME []]).set_reason [.Unimplemented],
   (Batch.from_statements
      [.Instruction "_jump_to_operation" []]).set_reason [.Label]]

/-- The terminal sink batch of the ROM: `_sink: _loop;` with no reason. -/
def sinkBatch : Batch :=
  Batch.from_statements [.Label "_sink", .Instruction "_loop" []]

/-- Setting of the last batch's reason to `Label` (`last_mut` followed by
`set_reason` in romgen.rs). -/
def setLastBatchReasonLabel : List Batch → List Batch
  | [] => []
  | [b] => [b.set_reason [Incompatible.Label]]
  | b :: rest => b :: setLastBatchReasonLabel rest

/-- The positional substitution map of one function, from declared input
names to the hidden `_input_i` names. -/
def inputSubstitutionOf (f : FunctionSymbol) : List (String × String) :=
  f.params.inputs.enum.map fun p => (p.2.name, input_at p.1)

/-- The input params of the operation replacing a function, named
`_input_i`. -/
def operationInputsOf (f : FunctionSymbol) : List Param :=
  f.params.inputs.enum.map fun p => ⟨input_at p.1, none, none⟩

/-- The output params of the operation replacing a function, named
`_output_i` (when the function declares outputs). -/
def operationOutputsOf (f : FunctionSymbol) : Option (List Param) :=
  f.params.outputs.map fun outs =>
    outs.enum.map fun p => (⟨output_at p.1, none, none⟩ : Param)

/-- The batches contributed to the ROM by one function: every statement
is input-substituted and return-padded, the label `_<name>:` is
prepended to the first batch, and the last batch's reason becomes
`Label`; a function with no statements is rejected. -/
def processFunctionBatches (output_count : Nat) (name : String)
    (f : FunctionSymbol) : Except String (List Batch) :=
  let body := f.body.map fun b =>
    { b with statements := b.statements.map (fun s =>
        pad_return_arguments
          (substitute_name_in_statement_expressions s (inputSubstitutionOf f))
          output_count) }
  match body with
  | [] => .error "function should have at least one statement as it must return"
  | b0 :: bs =>
    .ok (setLastBatchReasonLabel
      ({ b0 with statements :=
          FunctionStatement.Label s!"_{name}" :: b0.statements } :: bs))

/-- The per-function loop of `generate_machine_rom` (romgen.rs lines
132-215): each function receives operation id = ROM length at the moment
of its insertion, its batches (see `processFunctionBatches`) are
appended to the ROM, and the callable is replaced by an `Operation`. -/
def romgenProcessFunctions (output_count : Nat) :
    List (String × CallableSymbol) → List Batch →
    Except String (List (String × CallableSymbol) × List Batch)
  | [], rom => .ok ([], rom)
  | (name, sym) :: rest, rom => do
    let operation_id : F := (rom.length : Int)
    let f ← match sym with
      | .Function f => Except.ok f
      | .Operation _ => Except.error "internal error: entered unreachable code"
    let batches ← processFunctionBatches output_count name f
    let (rest2, rom2) ← romgenProcessFunctions output_count rest (rom ++ batches)
    .ok ((name, CallableSymbol.Operation
        ⟨0, ⟨some operation_id⟩,
          ⟨operationInputsOf f, operationOutputsOf f⟩⟩) :: rest2, rom2)

/-- Translation of `generate_machine_rom` (romgen.rs): machines without a
pc pass through untouched with no ROM; otherwise the embedded
instructions and hidden input/output registers are added, the dispatcher
prologue, per-function batches and sink are stitched into the ROM, and
the `_operation_id` witness column is injected.  The source computes the
input/output counts and iterates the callables after extending the
instruction and register lists; since those extensions never touch
`callable`, the counts and the callable iteration are written here
against the original machine. -/
def generate_machine_rom (machine : Machine) :
    Except String (Machine × Option Rom) :=
  if machine.has_pc = false then .ok (machine, none)
  else do
    rtAssert machine.is_only_functions
      "assertion failed: machine.callable.is_only_functions()"
    let operation_id := "_operation_id"
    let pc ← match machine.pc with
      | some pc => Except.ok pc
      | none => Except.error "called Option::unwrap() on a None value"
    let input_count := (machine.functions.map fun f => f.params.inputs.length).max?.getD 0
    let output_count := maxOutputCount machine
    let machine2 : Machine := { machine with instructions := machine.instructions ++
      [jump_to_operation_instruction pc operation_id,
       reset_instruction machine.write_register_names,
       loop_instruction pc] }
    let machine2 : Machine := { machine2 with registers := machine2.registers ++
      ((List.range input_count).map fun i =>
        (⟨0, input_at i, RegisterTy.ReadOnly⟩ : RegisterDeclarationStatement)) ++
      ((List.range output_count).map fun i =>
        (⟨0, output_at i, RegisterTy.Assignment⟩ : RegisterDeclarationStatement)) }
    let (callable2, rom) ← romgenProcessFunctions output_count machine.callable dispatcherRom
    let machine2 : Machine := { machine2 with callable := callable2 }
    let sink_id : F := (rom.length : Int)
    let rom := rom ++ [sinkBatch]
    let machine2 : Machine := { machine2 with pil :=
      machine2.pil ++ [operationIdColumn operation_id sink_id] }
    let machine2 : Machine := { machine2 with operation_id := some operation_id }
    .ok (machine2, some ⟨rom⟩)

/-- Lexicographic order on character lists (the order of Rust `String:
Ord`, since UTF-8 byte order coincides with scalar-value order). -/
def charListLt : List Char → List Char → Bool
  | _, [] => false
  | [], _ :: _ => true
  | a :: as, b :: bs =>
    if a < b then true
    else if b < a then false
    else charListLt as bs

/-- The `BTreeMap` key order: lexicographic comparison of the strings. -/
def strLt (a b : String) : Bool := charListLt a.data b.data

/-- Model of `BTreeMap<String, A>::insert` on a key-sorted association
list. -/
def btInsert {A : Type} (k : String) (v : A) :
    List (String × A) → List (String × A)
  | [] => [(k, v)]
  | (k2, v2) :: t =>
    if strLt k k2 then (k, v) :: (k2, v2) :: t
    else if k = k2 then (k, v) :: t
    else (k2, v2) :: btInsert k v t

/-- Model of `BTreeMap::extend`: insert every entry of `n` into `m`. -/
def btExtend {A : Type} (m n : List (String × A)) : List (String × A) :=
  n.foldl (fun acc p => btInsert p.1 p.2 acc) m

/-- Model of `BTreeMap::get_mut` followed by an update: `none` when the
key is absent. -/
def btModify {A : Type} (k : String) (f : A → A) :
    List (String × A) → Option (List (String × A))
  | [] => none
  | (k2, v2) :: t =>
    if k = k2 then some ((k2, f v2) :: t)
    else (btModify k f t).map fun t2 => (k2, v2) :: t2

/-- Model of `BTreeSet<String>::insert` on a sorted duplicate-free
list. -/
def btSetInsert (k : String) : List String → List String
  | [] => [k]
  | k2 :: t =>
    if strLt k k2 then k :: k2 :: t
    else if k = k2 then k2 :: t
    else k2 :: btSetInsert k t

/-- Model of `BTreeSet::extend`. -/
def btSetExtend (a b : List String) : List String :=
  b.foldl (fun acc k => btSetInsert k acc) a

/-- Model of `vm_to_constrained::LiteralKind`. -/
inductive LiteralKind where
  | Label
  | SignedConstant
  | UnsignedConstant
  deriving DecidableEq, Repr

/-- Model of `vm_to_constrained::Input`. -/
inductive Input where
  | Register (name : String)
  | Literal (name : String) (kind : LiteralKind)
  deriving DecidableEq, Repr

/-- Model of `vm_to_constrained::Register`: conditioned updates
(condition, value), an optional default update, and the register type. -/
structure Register where
  conditioned_updates : List (Expr × Expr)
  default_update : Option Expr
  ty : RegisterTy

/-- Model of `vm_to_constrained::Instruction`. -/
structure Instruction where
  inputs : List Input
  outputs : List String
  deriving DecidableEq, Repr

/-- Translation of `Instruction::literal_arg_names`. -/
def Instruction.literal_arg_names (i : Instruction) : List String :=
  i.inputs.filterMap fun inp =>
    match inp with
    | .Literal name _ => some name
    | .Register _ => none

/-- Model of `vm_to_constrained::AffineExpressionComponent`. -/
inductive AffineExpressionComponent where
  | Register (name : String)
  | Constant
  | FreeInput (e : Expr)

/-- Model of `vm_to_constrained::InstructionLiteralArg`. -/
inductive InstructionLiteralArg where
  | LabelRef (name : String)
  | Number (n : F)

/-- Model of `vm_to_constrained::CodeLine`; the `BTreeMap`s are key-sorted
association lists and the `labels` `BTreeSet` a sorted list. -/
structure CodeLine where
  write_regs : List (String × List String) := []
  value : List (String × List (F × AffineExpressionComponent)) := []
  labels : List String := []
  instructions : List (String × List InstructionLiteralArg) := []
  debug_directives : List String := []

/-- Model of the `ASMPILConverter` builder state. -/
structure ASMPILConverter where
  pil : List PilStatement := []
  pc_name : Option String := none
  registers : List (String × Register) := []
  instructions : List (String × Instruction) := []
  code_lines : List CodeLine := []
  line_lookup : List (String × String) := []
  rom_constant_names : List String := []
  output_count : Nat := 0

/-- Translation of `ASMPILConverter::with_output_count`. -/
def with_output_count (output_count : Nat) : ASMPILConverter :=
  { output_count := output_count }

/-- Translation of `ASMPILConverter::assignment_register_names`. -/
def ASMPILConverter.assignment_register_names (st : ASMPILConverter) : List String :=
  st.registers.filterMap fun p => if p.2.ty = .Assignment then some p.1 else none

/-- Translation of `ASMPILConverter::write_register_names`. -/
def ASMPILConverter.write_register_names (st : ASMPILConverter) : List String :=
  st.registers.filterMap fun p => if p.2.ty = .Write then some p.1 else none

/-- Translation of `ASMPILConverter::pc_register_names`. -/
def ASMPILConverter.pc_register_names (st : ASMPILConverter) : List String :=
  st.registers.filterMap fun p => if p.2.ty = .Pc then some p.1 else none

/-- Translation of `ASMPILConverter::read_only_register_names`. -/
def ASMPILConverter.read_only_register_names (st : ASMPILConverter) : List String :=
  st.registers.filterMap fun p => if p.2.ty = .ReadOnly then some p.1 else none

/-- Translation of the free function `witness_column`. -/
def witness_column (start : Nat) (name : String)
    (defn : Option FunctionDefinition) : PilStatement :=
  .PolynomialCommitDeclaration start [name] defn

/-- Translation of `ASMPILConverter::create_witness_fixed_pair`: create a
pair of witness and fixed column and match them in the lookup. -/
def ASMPILConverter.create_witness_fixed_pair (st : ASMPILConverter)
    (start : Nat) (name : String) : ASMPILConverter :=
  let fixed_name := s!"p_{name}"
  { st with
    pil := st.pil ++ [witness_column start name none],
    line_lookup := st.line_lookup ++ [(name, fixed_name)],
    rom_constant_names := st.rom_constant_names ++ [fixed_name] }

/-- Translation of `Register::update_expression`: the expression assigned
to this register in the next row, if any. -/
def Register.update_expression (r : Register) : Option Expr :=
  let updates := exprSum (r.conditioned_updates.map fun cv => cv.1 * cv.2)
  match r.conditioned_updates.length, r.default_update with
  | 0, update => update
  | _, none => some updates
  | _, some d =>
    let default_condition :=
      Expr.Number 1 - exprSum (r.conditioned_updates.map fun cv => cv.1)
    some (updates + default_condition * d)

/-- Translation of `ASMPILConverter::handle_register_declaration`. -/
def ASMPILConverter.handle_register_declaration (st : ASMPILConverter)
    (r : RegisterDeclarationStatement) : Except String ASMPILConverter := do
  let (st, conditioned_updates, default_update) ←
    match r.ty with
    | .Pc => do
      rtAssert st.pc_name.isNone "assertion failed: self.pc_name == None"
      let st := { st with
        pc_name := some r.name,
        line_lookup := st.line_lookup ++ [(r.name, "p_line")] }
      Except.ok (st, ([] : List (Expr × Expr)),
        some (direct_reference r.name + Expr.Number 1))
    | .Assignment => Except.ok (st, [], none)
    | .ReadOnly => Except.ok (st, [], some (direct_reference r.name))
    | .Write =>
      let assignment_regs := st.assignment_register_names
      let (st, cu) := assignment_regs.foldl
        (fun (acc : ASMPILConverter × List (Expr × Expr)) reg =>
          let write_flag := s!"reg_write_{reg}_{r.name}"
          (acc.1.create_witness_fixed_pair r.start write_flag,
           acc.2 ++ [(direct_reference write_flag, direct_reference reg)]))
        (st, [])
      Except.ok (st, cu, some (direct_reference r.name))
  let st := { st with
    registers := btInsert r.name ⟨conditioned_updates, default_update, r.ty⟩ st.registers }
  .ok { st with pil := st.pil ++ [witness_column r.start r.name none] }

/-- Translation of the free function `extract_update`: split `x' - rhs`
into the updated register and the right-hand side. -/
def extract_update (expr : Expr) : Option String × Expr :=
  match expr with
  | .BinaryOperation left .Sub right =>
    match left with
    | .UnaryOperation .Next column =>
      match column with
      | .Reference name => (some name, right)
      | column => (none, Expr.UnaryOperation .Next column - right)
    | left => (none, left - right)
  | expr => (none, expr)

/-- The intermediate polynomial names of the linearizer: `<prefix>` for
counter 0 and `<prefix>_<k>` for counter `k > 0`. -/
def intermediate_name (pfx : String) (k : Nat) : String :=
  pfx ++ (if k = 0 then "" else s!"_{k}")

/-- Translation of `ASMPILConverter::linearize_rec`, with the emitted
intermediate polynomial definitions returned as a list (the source pushes
them onto `self.pil` in the same order). -/
def linearize_rec (pfx : String) (counter : Nat) :
    Expr → Except String (Nat × Expr × List PilStatement)
  | .BinaryOperation left op right =>
    match op with
    | .Add => do
      let (c1, l2, d1) ← linearize_rec pfx counter left
      let (c2, r2, d2) ← linearize_rec pfx c1 right
      .ok (c2, l2 + r2, d1 ++ d2)
    | .Sub => do
      let (c1, l2, d1) ← linearize_rec pfx counter left
      let (c2, r2, d2) ← linearize_rec pfx c1 right
      .ok (c2, l2 - r2, d1 ++ d2)
    | .Mul => do
      let (c1, l2, d1) ← linearize_rec pfx counter left
      let (c2, r2, d2) ← linearize_rec pfx c1 right
      let iname := intermediate_name pfx c2
      .ok (c2 + 1, direct_reference iname,
        d1 ++ d2 ++ [.PolynomialDefinition 0 iname (l2 * r2)])
    | op => .error (op.render ++ " is not supported when linearizing")
  | e => .ok (counter, e, [])

/-- Translation of `ASMPILConverter::linearize`. -/
def ASMPILConverter.linearize (st : ASMPILConverter) (pfx : String)
    (expr : Expr) : Except String (ASMPILConverter × Expr) := do
  let (_, e, defs) ← linearize_rec pfx 0 expr
  .ok ({ st with pil := st.pil ++ defs }, e)

/-- Application of a function to every expression of a selected-expression
pair (part of the visitor used on instruction bodies). -/
def SelectedExpressions.mapExpressions (f : Expr → Expr)
    (s : SelectedExpressions) : SelectedExpressions :=
  ⟨s.selector.map f, s.expressions.map f⟩

/-- Application of a function to every expression of an array
expression. -/
def ArrayExpression.mapExpressions (f : Expr → Expr) :
    ArrayExpression → ArrayExpression
  | .Value l => .Value (l.map f)
  | .RepeatedValue l => .RepeatedValue (l.map f)
  | .Concat a b => .Concat (a.mapExpressions f) (b.mapExpressions f)

/-- Application of a function to every expression of a function
definition. -/
def FunctionDefinition.mapExpressions (f : Expr → Expr) :
    FunctionDefinition → FunctionDefinition
  | .Array a => .Array (a.mapExpressions f)
  | .Query e => .Query (f e)

/-- Application of a function to every expression of a PIL statement (the
statement-level step of `post_visit_expressions_mut`). -/
def PilStatement.mapExpressions (f : Expr → Expr) : PilStatement → PilStatement
  | .PolynomialCommitDeclaration s ns d =>
    .PolynomialCommitDeclaration s ns (d.map fun d2 => d2.mapExpressions f)
  | .PolynomialConstantDefinition s n d =>
    .PolynomialConstantDefinition s n (d.mapExpressions f)
  | .PolynomialDefinition s n e => .PolynomialDefinition s n (f e)
  | .PolynomialIdentity s e => .PolynomialIdentity s (f e)
  | .PlookupIdentity s l r =>
    .PlookupIdentity s (l.mapExpressions f) (r.mapExpressions f)
  | .PermutationIdentity s l r =>
    .PermutationIdentity s (l.mapExpressions f) (r.mapExpressions f)

/-- `self.registers.get_mut(var).unwrap()` followed by writing back the
modified register map. -/
def setRegisters (st : ASMPILConverter)
    (o : Option (List (String × Register))) : Except String ASMPILConverter :=
  match o with
  | some regs => Except.ok { st with registers := regs }
  | none => Except.error "called Option::unwrap() on a None value"

/-- One statement of a local instruction body (the loop body of
`handle_instruction_def`): register updates become conditioned updates of
the register, other identities are multiplied by the instruction flag,
lookups and permutations receive the flag as their left selector. -/
def instrBodyStep (flag : String) (st : ASMPILConverter) :
    PilStatement → Except String ASMPILConverter
  | .PolynomialIdentity _ expr =>
    match extract_update expr with
    | (some var, expr2) => do
      let reference := direct_reference flag
      let (st, expr3) ← st.linearize s!"{flag}_{var}_update" expr2
      setRegisters st (btModify var
        (fun r => { r with conditioned_updates :=
          r.conditioned_updates ++ [(reference, expr3)] })
        st.registers)
    | (none, expr2) =>
      Except.ok { st with pil := st.pil ++
        [.PolynomialIdentity 0 (direct_reference flag * expr2)] }
  | .PermutationIdentity ps left right => do
    rtAssert left.selector.isNone
      "LHS selector not supported, could and-combine with instruction flag later."
    Except.ok { st with pil := st.pil ++
      [.PermutationIdentity ps
        { left with selector := some (direct_reference flag) } right] }
  | .PlookupIdentity ps left right => do
    rtAssert left.selector.isNone
      "LHS selector not supported, could and-combine with instruction flag later."
    Except.ok { st with pil := st.pil ++
      [.PlookupIdentity ps
        { left with selector := some (direct_reference flag) } right] }
  | _ => Except.error "Invalid statement for instruction body"

/-- Translation of `ASMPILConverter::handle_instruction_def`: create the
flag column, classify the parameters, process the body (local statements
become conditioned updates, flag-gated identities or selector-carrying
lookups; an external reference becomes a link), and record the
instruction. -/
def ASMPILConverter.handle_instruction_def (st : ASMPILConverter)
    (s : InstructionDefinitionStatement) :
    Except String (ASMPILConverter × Option LinkDefinitionStatement) := do
  let instruction_name := s.name
  let flag := s!"instr_{instruction_name}"
  let st := st.create_witness_fixed_pair s.start flag
  let inputs ← s.instruction.params.inputs.mapM fun param => do
    rtAssert param.index.isNone "Cannot use array elements for instruction parameters."
    match param.ty with
    | some ty =>
      if ty = "label" then Except.ok (Input.Literal param.name .Label)
      else if ty = "signed" then Except.ok (Input.Literal param.name .SignedConstant)
      else if ty = "unsigned" then Except.ok (Input.Literal param.name .UnsignedConstant)
      else Except.error "internal error: entered unreachable code"
    | none => Except.ok (Input.Register param.name)
  let outputs ← match s.instruction.params.outputs with
    | some outs => outs.mapM fun param => do
        rtAssert param.index.isNone "Cannot use array elements for instruction outputs."
        rtAssert param.ty.isNone "output must be a register"
        Except.ok param.name
    | none => Except.ok []
  let instr : Instruction := ⟨inputs, outputs⟩
  let (st, res) ← match s.instruction.body with
    | .Local body => do
      let (st, substitutions) := instr.literal_arg_names.foldl
        (fun (acc : ASMPILConverter × List (String × String)) arg_name =>
          let param_col_name := s!"instr_{instruction_name}_param_{arg_name}"
          (acc.1.create_witness_fixed_pair s.start param_col_name,
           acc.2 ++ [(arg_name, param_col_name)]))
        (st, [])
      let body := body.map fun b =>
        b.mapExpressions (substituteReferences substitutions)
      let st ← body.foldlM (instrBodyStep flag) st
      Except.ok (st, (none : Option LinkDefinitionStatement))
    | .CallableRef tgt =>
      Except.ok (st, some ⟨s.start, direct_reference flag, s.instruction.params, tgt⟩)
  let st := { st with instructions := btInsert instruction_name instr st.instructions }
  .ok (st, res)

mutual

/-- Translation of `NextTransform::fold_expression`
(vm_to_constrained.rs): rewrites `x` into `x(i)` and `x'` into
`x(i + 1)` inside free-input prover queries; every other node is folded
structurally (the default folder), except that the function slot of a
call is folded without top-level reference replacement. -/
def nextTransform : Expr → Except String Expr
  | .Reference r =>
    if r = "i" then .ok (.Reference r)
    else .ok (.FunctionCall (.Reference r) [direct_reference "i"])
  | .UnaryOperation .Next inner =>
    match inner with
    | .Reference n =>
      .ok (.FunctionCall (.Reference n) [direct_reference "i" + Expr.Number 1])
    | _ => .error "Can only use ' on symbols directly in free inputs."
  | .Number n => .ok (.Number n)
  | .PublicReference n => .ok (.PublicReference n)
  | .BinaryOperation l op r => do
    .ok (.BinaryOperation (← nextTransform l) op (← nextTransform r))
  | .UnaryOperation .Minus e => do
    .ok (.UnaryOperation .Minus (← nextTransform e))
  | .FunctionCall f args => do
    .ok (.FunctionCall (← nextTransformFnSlot f) (← nextTransformList args))
  | .FreeInput e => do .ok (.FreeInput (← nextTransform e))
  | .StringLiteral s => .ok (.StringLiteral s)
  | .Tuple items => do .ok (.Tuple (← nextTransformList items))
  | .ArrayLiteral items => do .ok (.ArrayLiteral (← nextTransformList items))
  | .MatchExpression s arms => do
    .ok (.MatchExpression (← nextTransform s) (← nextTransformArms arms))
  | .IfExpression c t e => do
    .ok (.IfExpression (← nextTransform c) (← nextTransform t) (← nextTransform e))
  | .LambdaExpression ps b => do .ok (.LambdaExpression ps (← nextTransform b))
  | .IndexAccess a i => do
    .ok (.IndexAccess (← nextTransform a) (← nextTransform i))

/-- Translation of `NextTransform::fold_function_call` applied to the
function slot: `fold_expression_default`, i.e. the node itself is not
replaced but its children are folded with the full transform. -/
def nextTransformFnSlot : Expr → Except String Expr
  | .Reference r => .ok (.Reference r)
  | .Number n => .ok (.Number n)
  | .PublicReference n => .ok (.PublicReference n)
  | .BinaryOperation l op r => do
    .ok (.BinaryOperation (← nextTransform l) op (← nextTransform r))
  | .UnaryOperation op e => do .ok (.UnaryOperation op (← nextTransform e))
  | .FunctionCall f args => do
    .ok (.FunctionCall (← nextTransformFnSlot f) (← nextTransformList args))
  | .FreeInput e => do .ok (.FreeInput (← nextTransform e))
  | .StringLiteral s => .ok (.StringLiteral s)
  | .Tuple items => do .ok (.Tuple (← nextTransformList items))
  | .ArrayLiteral items => do .ok (.ArrayLiteral (← nextTransformList items))
  | .MatchExpression s arms => do
    .ok (.MatchExpression (← nextTransform s) (← nextTransformArms arms))
  | .IfExpression c t e => do
    .ok (.IfExpression (← nextTransform c) (← nextTransform t) (← nextTransform e))
  | .LambdaExpression ps b => do .ok (.LambdaExpression ps (← nextTransform b))
  | .IndexAccess a i => do
    .ok (.IndexAccess (← nextTransform a) (← nextTransform i))

/-- Fold of a list of expressions with `nextTransform`. -/
def nextTransformList : List Expr → Except String (List Expr)
  | [] => .ok []
  | e :: t => do .ok ((← nextTransform e) :: (← nextTransformList t))

/-- Fold of match arms with `nextTransform`. -/
def nextTransformArms :
    List (Option Expr × Expr) → Except String (List (Option Expr × Expr))
  | [] => .ok []
  | (none, v) :: t => do .ok ((none, ← nextTransform v) :: (← nextTransformArms t))
  | (some p, v) :: t => do
    .ok ((some (← nextTransform p), ← nextTransform v) :: (← nextTransformArms t))

end

/-- Modelled from the spec: `FieldElement::is_in_lower_half`, validating
unsigned literal args; with field elements modelled as integers this is
non-negativity. -/
def is_in_lower_half (n : F) : Bool := 0 ≤ n

/-- Translation of `ASMPILConverter::negate_assignment_value`. -/
def negate_assignment_value (expr : List (F × AffineExpressionComponent)) :
    List (F × AffineExpressionComponent) :=
  expr.map fun p => (-p.1, p.2)

/-- Translation of `ASMPILConverter::add_assignment_value`. -/
def add_assignment_value (left right : List (F × AffineExpressionComponent)) :
    List (F × AffineExpressionComponent) :=
  left ++ right

/-- Translation of `ASMPILConverter::process_assignment_value`: the
affine expression reducer, returning `(coefficient, component)` pairs. -/
def process_assignment_value :
    Expr → Except String (List (F × AffineExpressionComponent))
  | .PublicReference _ => .error "explicit panic"
  | .IndexAccess _ _ => .error "explicit panic"
  | .FunctionCall _ _ => .error "explicit panic"
  | .Reference name => .ok [(1, .Register name)]
  | .Number v => .ok [(v, .Constant)]
  | .StringLiteral _ => .error "explicit panic"
  | .Tuple _ => .error "explicit panic"
  | .ArrayLiteral _ => .error "explicit panic"
  | .MatchExpression _ _ => .error "explicit panic"
  | .IfExpression _ _ _ => .error "explicit panic"
  | .FreeInput expr => .ok [(1, .FreeInput expr)]
  | .LambdaExpression _ _ =>
    .error "internal error: lambda expressions should have been removed"
  | .BinaryOperation left op right =>
    match op with
    | .Add => do
      .ok (add_assignment_value (← process_assignment_value left)
        (← process_assignment_value right))
    | .Sub => do
      .ok (add_assignment_value (← process_assignment_value left)
        (negate_assignment_value (← process_assignment_value right)))
    | .Mul => do
      let l ← process_assignment_value left
      let r ← process_assignment_value right
      match l with
      | [(f, .Constant)] => .ok (r.map fun p => (f * p.1, p.2))
      | l =>
        match r with
        | [(f, .Constant)] => .ok (l.map fun p => (f * p.1, p.2))
        | _ => .error "Multiplication by non-constant."
    | .Pow => do
      let l ← process_assignment_value left
      let r ← process_assignment_value right
      match l, r with
      | [(lv, .Constant)], [(rv, .Constant)] =>
        if rv < 0 ∨ rv > 4294967295 then .error "Exponent too large"
        else .ok [(lv ^ rv.toNat, .Constant)]
      | _, _ => .error "Exponentiation of non-constants."
    | op => .error s!"Invalid operation in expression left {op.render} right"
  | .UnaryOperation op expr => do
    rtAssert (op = .Minus) "assertion failed: op == UnaryOperator::Minus"
    .ok (negate_assignment_value (← process_assignment_value expr))

/-- Translation of `ASMPILConverter::handle_non_functional_assignment`. -/
def ASMPILConverter.handle_non_functional_assignment (_st : ASMPILConverter)
    (lhs_with_reg : List (String × String)) (value : Expr) :
    Except String CodeLine := do
  rtAssert (lhs_with_reg.length = 1)
    "Multi assignments are only implemented for function calls."
  let (write_regs, assign_reg) ← match lhs_with_reg with
    | p :: _ => Except.ok p
    | [] => Except.error "called Option::unwrap() on a None value"
  let v ← process_assignment_value value
  .ok { write_regs := [(assign_reg, [write_regs])], value := [(assign_reg, v)] }

/-- The instruction lookup shared by `handle_instruction` and
`handle_functional_instruction` (`self.instructions.get(..)` unwrapped
with an "Instruction not found" panic). -/
def ASMPILConverter.lookupInstr (st : ASMPILConverter) (instr_name : String) :
    Except String Instruction :=
  match st.instructions.lookup instr_name with
  | some i => Except.ok i
  | none => Except.error s!"Instruction not found: {instr_name}"

/-- Translation of `ASMPILConverter::handle_instruction`: split the
arguments into inputs and outputs, reduce register inputs to affine
values, record literal args, and record the output writes. -/
def ASMPILConverter.handle_instruction (st : ASMPILConverter)
    (instr_name : String) (args : List Expr) : Except String CodeLine := do
  let instr ← st.lookupInstr instr_name
  rtAssert (instr.inputs.length + instr.outputs.length = args.length)
    s!"Called instruction {instr_name} with the wrong number of arguments"
  let inputArgs := args.take instr.inputs.length
  let outputArgs := args.drop instr.inputs.length
  let (value, instruction_literal_args) ← (instr.inputs.zip inputArgs).foldlM
    (fun (acc : List (String × List (F × AffineExpressionComponent)) ×
        List InstructionLiteralArg) pair => do
      let (value, lit) := acc
      match pair.1 with
      | .Register reg => do
        rtAssert (value.lookup reg).isNone
          "assertion failed: !value.contains_key(reg)"
        let v ← process_assignment_value pair.2
        Except.ok (btInsert reg v value, lit)
      | .Literal _ .Label =>
        match pair.2 with
        | .Reference r =>
          Except.ok (value, lit ++ [InstructionLiteralArg.LabelRef r])
        | _ => Except.error "explicit panic"
      | .Literal _ .UnsignedConstant =>
        match pair.2 with
        | .Number n =>
          if is_in_lower_half n then
            Except.ok (value, lit ++ [InstructionLiteralArg.Number n])
          else
            Except.error
              s!"Number passed to unsigned parameter is negative or too large: {n}"
        | _ => Except.error "expected unsigned number"
      | .Literal _ .SignedConstant =>
        match pair.2 with
        | .Number n => Except.ok (value, lit ++ [InstructionLiteralArg.Number n])
        | .UnaryOperation .Minus expr =>
          match expr with
          | .Number n =>
            Except.ok (value, lit ++ [InstructionLiteralArg.Number (-n)])
          | _ => Except.error "explicit panic"
        | _ => Except.error "explicit panic")
    ([], [])
  let write_regs ← (instr.outputs.zip outputArgs).foldlM
    (fun (acc : List (String × List String)) pair =>
      match pair.2 with
      | .Reference r => Except.ok (btInsert pair.1 [r] acc)
      | _ => Except.error "Expected direct register to assign to in instruction call.")
    []
  rtAssert (write_regs.length = instr.outputs.length)
    "assertion failed: write_regs.len() == instr.outputs.len()"
  .ok { write_regs := write_regs, value := value,
        instructions := [(instr_name, instruction_literal_args)] }

/-- Translation of `ASMPILConverter::handle_functional_instruction`. -/
def ASMPILConverter.handle_functional_instruction (st : ASMPILConverter)
    (lhs_with_regs : List (String × String)) (function : Expr)
    (args : List Expr) : Except String CodeLine := do
  let instr_name ← match function with
    | .Reference r => Except.ok r
    | _ => Except.error "Expected instruction name"
  let instr ← st.lookupInstr instr_name
  let output := instr.outputs
  (output.zip lhs_with_regs).forM fun p =>
    rtAssert (p.1 = p.2.2)
      s!"The instruction {instr_name} uses a different output register than the caller"
  let args := args ++ lhs_with_regs.map fun p => direct_reference p.1
  st.handle_instruction instr_name args

/-- Translation of `ASMPILConverter::handle_statement`. -/
def ASMPILConverter.handle_statement (st : ASMPILConverter) :
    FunctionStatement → Except String CodeLine
  | .Assignment lhs_with_reg rhs => do
    let lhs_with_reg2 ← lhs_with_reg.mapM fun p =>
      match p.2 with
      | some reg => Except.ok (p.1, reg)
      | none => Except.error "called Option::unwrap() on a None value"
    match rhs with
    | .FunctionCall f arguments =>
      st.handle_functional_instruction lhs_with_reg2 f arguments
    | rhs => st.handle_non_functional_assignment lhs_with_reg2 rhs
  | .Instruction instruction inputs => st.handle_instruction instruction inputs
  | .Label name => .ok { labels := [name] }
  | .DebugDirective d => .ok { debug_directives := [d] }
  | .Return values => st.handle_instruction RETURN_NAME values

/-- The `reduce` closure of `ASMPILConverter::handle_batch`: merge the
next statement's code line into the accumulator, asserting that the
accumulated write-regs, value and instructions are still empty. -/
def codeLineUnionStep (acc e : CodeLine) : Except String CodeLine := do
  rtAssert acc.write_regs.isEmpty "assertion failed: acc.write_regs.is_empty()"
  let wr := btExtend acc.write_regs e.write_regs
  rtAssert acc.value.isEmpty "assertion failed: acc.value.is_empty()"
  let v := btExtend acc.value e.value
  rtAssert acc.instructions.isEmpty "assertion failed: acc.instructions.is_empty()"
  .ok { write_regs := wr, value := v,
        instructions := acc.instructions ++ e.instructions,
        labels := btSetExtend acc.labels e.labels,
        debug_directives := acc.debug_directives ++ e.debug_directives }

/-- The interleaved statement-handling and reduction of
`ASMPILConverter::handle_batch` (iterator `reduce` pulls one statement at
a time). -/
def ASMPILConverter.handleBatchFold (st : ASMPILConverter) :
    CodeLine → List FunctionStatement → Except String CodeLine
  | acc, [] => .ok acc
  | acc, s :: rest => do
    let e ← st.handle_statement s
    let acc ← codeLineUnionStep acc e
    st.handleBatchFold acc rest

/-- Translation of `ASMPILConverter::handle_batch`. -/
def ASMPILConverter.handle_batch (st : ASMPILConverter) (batch : Batch) :
    Except String ASMPILConverter := do
  match batch.statements with
  | [] => .error "unexpected empty batch"
  | s :: rest => do
    let c ← st.handle_statement s
    let code_line ← st.handleBatchFold c rest
    .ok { st with code_lines := st.code_lines ++ [code_line] }

/-- Translation of `ASMPILConverter::create_constraints_for_assignment_reg`. -/
def ASMPILConverter.create_constraints_for_assignment_reg
    (st : ASMPILConverter) (register : String) : ASMPILConverter :=
  let assign_const := s!"{register}_const"
  let st := st.create_witness_fixed_pair 0 assign_const
  let read_free := s!"{register}_read_free"
  let st := st.create_witness_fixed_pair 0 read_free
  let free_value := s!"{register}_free_value"
  let read_registers := st.write_register_names ++ st.pc_register_names ++
    st.read_only_register_names
  let (st, terms) := read_registers.foldl
    (fun (acc : ASMPILConverter × List Expr) name =>
      let read_coefficient := s!"read_{register}_{name}"
      (acc.1.create_witness_fixed_pair 0 read_coefficient,
       acc.2 ++ [direct_reference read_coefficient * direct_reference name]))
    (st, [])
  let assign_constraint := exprSum (terms ++
    [direct_reference assign_const,
     direct_reference read_free * direct_reference free_value])
  { st with pil := st.pil ++
    [.PolynomialIdentity 0 (direct_reference register - assign_constraint)] }

/-- The (label, line index) pairs enumerated by
`compute_label_positions` (its `flat_map` stage). -/
def labelPairs (code_lines : List CodeLine) : List (String × Nat) :=
  code_lines.enum.flatMap fun p => p.2.labels.map fun l => (l, p.1)

/-- The duplicate-checking insertion of `compute_label_positions`
(`HashMap::insert` asserted to return no previous value). -/
def labelInsert (r : List (String × Nat)) (p : String × Nat) :
    Except String (List (String × Nat)) :=
  if (r.lookup p.1).isSome then .error s!"Duplicate label: {p.1}"
  else .ok (r ++ [p])

/-- Translation of `ASMPILConverter::compute_label_positions`: map each
label to the index of the code line whose label set contains it, failing
on duplicates. -/
def compute_label_positions (code_lines : List CodeLine) :
    Except String (List (String × Nat)) :=
  (labelPairs code_lines).foldlM labelInsert []

/-- One cell update of the ROM constants (`rom_constants.get_mut(name)`
followed by an indexed write), failing with the source's panic message
when the column name is absent. -/
def rcSet (m : List (String × List F)) (name : String) (i : Nat) (v : F)
    (msg : String) : Except String (List (String × List F)) :=
  match btModify name (fun vs => vs.set i v) m with
  | some m2 => .ok m2
  | none => .error msg

/-- One cell increment of the ROM constants (`[i] += coeff`). -/
def rcAdd (m : List (String × List F)) (name : String) (i : Nat) (v : F)
    (msg : String) : Except String (List (String × List F)) :=
  match btModify name (fun vs => vs.set i (vs.getD i 0 + v)) m with
  | some m2 => .ok m2
  | none => .error msg

/-- The per-line loop body of `ASMPILConverter::translate_code_lines`:
populate the ROM constants (write flags, read coefficients, constants,
free-input flags, instruction flags, literal params) and collect the
free-input prover-query match arms for line `i`. -/
def translateLine (instructions : List (String × Instruction))
    (label_positions : List (String × Nat)) (i : Nat) (line : CodeLine)
    (acc : List (String × List F) × List (String × List (Option Expr × Expr))) :
    Except String
      (List (String × List F) × List (String × List (Option Expr × Expr))) := do
  let (rom_constants, arms) := acc
  let rom_constants ← line.write_regs.foldlM
    (fun rc p => p.2.foldlM
      (fun rc reg => rcSet rc s!"p_reg_write_{p.1}_{reg}" i 1
        s!"Register combination {reg} <={p.1}= not found.")
      rc)
    rom_constants
  let (rom_constants, arms) ← line.value.foldlM
    (fun (acc2 : List (String × List F) ×
        List (String × List (Option Expr × Expr))) p =>
      p.2.foldlM
        (fun (acc3 : List (String × List F) ×
            List (String × List (Option Expr × Expr))) ci => do
          let (rc, arms) := acc3
          let (coeff, item) := ci
          match item with
          | .Register reg => do
            let rc ← rcAdd rc s!"p_read_{p.1}_{reg}" i coeff
              s!"Register combination <={p.1}= {reg} not found."
            Except.ok (rc, arms)
          | .Constant => do
            let rc ← rcAdd rc s!"p_{p.1}_const" i coeff
              "called Option::unwrap() on a None value"
            Except.ok (rc, arms)
          | .FreeInput expr => do
            let rc ← rcAdd rc s!"p_{p.1}_read_free" i coeff
              "called Option::unwrap() on a None value"
            let v ← nextTransform expr
            match btModify p.1
                (fun l => l ++ [((some (Expr.Number (i : Int)) : Option Expr), v)])
                arms with
            | some arms2 => Except.ok (rc, arms2)
            | none => Except.error "called Option::unwrap() on a None value")
        acc2)
    (rom_constants, arms)
  let rom_constants ← line.instructions.foldlM
    (fun rc p => do
      let (instr, literal_args) := p
      let rc ← line.write_regs.foldlM
        (fun rc wp =>
          if wp.2.isEmpty then Except.ok rc
          else rcSet rc s!"p_{wp.1}_read_free" i 1
            "called Option::unwrap() on a None value")
        rc
      let rc ← rcSet rc s!"p_instr_{instr}" i 1
        "called Option::unwrap() on a None value"
      let instrDef ← match instructions.lookup instr with
        | some d => Except.ok d
        | none => Except.error s!"no entry found for key {instr}"
      (literal_args.zip instrDef.literal_arg_names).foldlM
        (fun rc ap => do
          let v ← match ap.1 with
            | .LabelRef name =>
              match label_positions.lookup name with
              | some pos => Except.ok ((pos : Int) : F)
              | none => Except.error s!"{name} not found in labels"
            | .Number n => Except.ok n
          rcSet rc s!"p_instr_{instr}_param_{ap.2}" i v
            "called Option::unwrap() on a None value")
        rc)
    rom_constants
  .ok (rom_constants, arms)

/-- The fixed-column value of one ROM constant (`translate_code_lines`
phase F): a repeated value when all entries agree, otherwise the entries
padded with the last one; indexing an empty ROM panics. -/
def romConstantColumn (vals : List F) : Except String ArrayExpression :=
  match vals with
  | [] => Except.error "index out of bounds: the len is 0 but the index is 0"
  | v :: vs =>
    if vs.all (fun x => x = v) then
      Except.ok (ArrayExpression.RepeatedValue [Expr.Number v])
    else
      Except.ok ((padWithLast ((v :: vs).map Expr.Number)).getD
        (.RepeatedValue [Expr.Number 0]))

/-- Translation of `ASMPILConverter::translate_code_lines`: emit
`p_line`, populate the ROM constants over all code lines, emit the
free-value witness columns with their prover queries, and emit one fixed
column per ROM constant. -/
def ASMPILConverter.translate_code_lines (st : ASMPILConverter) :
    Except String ASMPILConverter := do
  let st : ASMPILConverter := { st with pil := st.pil ++
    [PilStatement.PolynomialConstantDefinition 0 "p_line" (.Array
      ((padWithLast ((List.range st.code_lines.length).map
        fun i => Expr.Number (i : Int))).getD
        (.RepeatedValue [Expr.Number 0])))] }
  let rom_constants0 := st.rom_constant_names.foldl
    (fun m n => btInsert n (List.replicate st.code_lines.length (0 : F)) m) []
  let arms0 := st.assignment_register_names.map
    fun r => (r, ([] : List (Option Expr × Expr)))
  let label_positions ← compute_label_positions st.code_lines
  let (rom_constants, arms) ← st.code_lines.enum.foldlM
    (fun acc (p : Nat × CodeLine) =>
      translateLine st.instructions label_positions p.1 p.2 acc)
    (rom_constants0, arms0)
  let pc_name ← optUnwrap st.pc_name
  let free_value_pil ← st.assignment_register_names.mapM fun reg => do
    let free_value := s!"{reg}_free_value"
    let prover_query_arms ← optUnwrap (arms.lookup reg)
    let prover_query :=
      if prover_query_arms.isEmpty then none
      else some (FunctionDefinition.Query (.LambdaExpression ["i"]
        (.MatchExpression
          (.FunctionCall (direct_reference pc_name) [direct_reference "i"])
          prover_query_arms)))
    Except.ok (witness_column 0 free_value prover_query)
  let st : ASMPILConverter := { st with pil := st.pil ++ free_value_pil }
  let st ← rom_constants.foldlM
    (fun (st : ASMPILConverter) (p : String × List F) => do
      let arr ← romConstantColumn p.2
      Except.ok { st with pil := st.pil ++
        [.PolynomialConstantDefinition 0 p.1 (.Array arr)] })
    st
  .ok st

/-- The statements emitted for one register's update identity
(`convert_machine` phase D): pc gets an intermediate `<name>_update`
polynomial and a `first_step`-gated identity, read-only registers are
unconstrained under `_reset`, all others get `name' - update = 0`. -/
def registerUpdateStatements (name : String) (reg : Register) :
    List PilStatement :=
  match reg.update_expression with
  | none => []
  | some rhs =>
    let lhs := next_reference name
    match reg.ty with
    | .Pc =>
      let pc_update_name := s!"{name}_update"
      [.PolynomialDefinition 0 pc_update_name rhs,
       .PolynomialIdentity 0 (lhs - (Expr.Number 1 - next_reference "first_step") *
         direct_reference pc_update_name)]
    | .ReadOnly =>
      [.PolynomialIdentity 0 ((Expr.Number 1 - direct_reference "instr__reset") *
        (lhs - rhs))]
    | _ => [.PolynomialIdentity 0 (lhs - rhs)]

/-- The register-update emission of `convert_machine` phase D, over all
registers in `BTreeMap` (sorted) order. -/
def registerUpdatePil (registers : List (String × Register)) :
    List PilStatement :=
  registers.flatMap fun p => registerUpdateStatements p.1 p.2

/-- Phases A-D of `ASMPILConverter::convert_machine`: drain the registers
into constraints, drain the instructions into constraints and links,
introduce the synthetic `return` instruction, constrain the assignment
registers, introduce `first_step`, and emit the register-update
identities. -/
def ASMPILConverter.convertPreRom (st : ASMPILConverter) (input : Machine) :
    Except String (ASMPILConverter × Machine) := do
  let st ← input.registers.foldlM ASMPILConverter.handle_register_declaration st
  let input := { input with registers := [] }
  let (st, links) ← input.instructions.foldlM
    (fun (acc : ASMPILConverter × List LinkDefinitionStatement) idef => do
      let (st, link) ← acc.1.handle_instruction_def idef
      Except.ok (st, acc.2 ++ link.toList))
    (st, [])
  let input := { input with instructions := [], links := input.links ++ links }
  let pcn ← optUnwrap st.pc_name
  let (st, retLink) ← st.handle_instruction_def
    ⟨0, RETURN_NAME, return_instruction st.output_count pcn⟩
  rtAssert retLink.isNone "return instruction cannot link to an external function"
  let assignment_registers := st.assignment_register_names
  let st := assignment_registers.foldl
    ASMPILConverter.create_constraints_for_assignment_reg st
  let st : ASMPILConverter := { st with pil := st.pil ++
    [PilStatement.PolynomialConstantDefinition 0 "first_step"
      (.Array (padWithZeroes [Expr.Number 1]))] }
  let st : ASMPILConverter := { st with pil := st.pil ++ registerUpdatePil st.registers }
  .ok (st, input)

/-- Phases A-F of `ASMPILConverter::convert_machine` on a machine with a
pc: everything up to and including the ROM batches, the latch, and
`translate_code_lines`, returning the final converter state. -/
def ASMPILConverter.convertCore (st : ASMPILConverter) (input : Machine)
    (rom : Option Rom) : Except String (ASMPILConverter × Machine) := do
  let (st, input) ← st.convertPreRom input
  let r ← optUnwrap rom
  let st ← r.statements.foldlM ASMPILConverter.handle_batch st
  let input := { input with latch := some (instruction_flag RETURN_NAME) }
  let st ← st.translate_code_lines
  .ok (st, input)

/-- The final plookup identity of `convert_machine` (phase G): no
selectors, witness columns of the registered lookup pairs on the left,
their fixed columns on the right, in insertion order. -/
def lineLookupIdentity (line_lookup : List (String × String)) : PilStatement :=
  .PlookupIdentity 0
    ⟨none, line_lookup.map fun x => direct_reference x.1⟩
    ⟨none, line_lookup.map fun x => direct_reference x.2⟩

/-- Translation of `ASMPILConverter::convert_machine`: machines without a
pc are returned unchanged (asserting no ROM); otherwise all phases run
and the accumulated PIL plus the final plookup are appended to the
machine's PIL. -/
def ASMPILConverter.convert_machine (st : ASMPILConverter) (input : Machine)
    (rom : Option Rom) : Except String Machine := do
  if input.has_pc = false then do
    rtAssert rom.isNone "assertion failed: rom.is_none()"
    .ok input
  else do
    let (st, input) ← st.convertCore input rom
    let st := { st with pil := st.pil ++ [lineLookupIdentity st.line_lookup] }
    .ok (if st.pil.isEmpty then input
      else { input with pil := input.pil ++ st.pil })

/-- Translation of the free function `convert_machine`
(vm_to_constrained.rs lines 29-42): compute the maximum output count
over the machine's operations and run the converter. -/
def convert_machine (machine : Machine) (rom : Option Rom) :
    Except String Machine :=
  let output_count := (machine.operations.map
    fun o => (o.params.outputs.map List.length).getD 0).max?.getD 0
  (with_output_count output_count).convert_machine machine rom

/-- View: the operation ids recorded in a machine's callables, in
callable order. -/
def Machine.operationIds (m : Machine) : List F :=
  m.callable.filterMap fun c =>
    match c.2 with
    | .Operation o => o.id.id
    | .Function _ => none

/-- View: the operation ids of `generate_machine_rom`'s output machine
(empty when ROM generation fails or produces no ROM). -/
def romgenOpIds (m : Machine) : List F :=
  match generate_machine_rom m with
  | .ok (m2, _) => m2.operationIds
  | .error _ => []

/-- The claim's id shape: a prefix of the naturals starting at 2, with no
gaps and no duplicates. -/
def isGaplessFromTwo (ids : List F) : Prop :=
  ids = (List.range ids.length).map fun k => ((k : Int) + 2)

/-- The ids actually assigned by ROM generation: each function receives
the running ROM length, which then grows by that function's batch
count. -/
def operationIdsSpec (start : Nat) : List (String × CallableSymbol) → List F
  | [] => []
  | (_, .Function f) :: rest =>
    ((start : Int) : F) :: operationIdsSpec (start + f.body.length) rest
  | (_, .Operation _) :: rest => operationIdsSpec start rest

/-- The function symbols of a callable list. -/
def functionsOfCallables (cs : List (String × CallableSymbol)) :
    List FunctionSymbol :=
  cs.filterMap fun c =>
    match c.2 with
    | .Function f => some f
    | .Operation _ => none

/-- Whether a PIL statement is a plookup identity. -/
def isPlookup : PilStatement → Bool
  | .PlookupIdentity _ _ _ => true
  | _ => false

/-- Whether a PIL statement is a plookup identity with both selectors
`None`. -/
def isBarePlookup : PilStatement → Bool
  | .PlookupIdentity _ l r => l.selector.isNone && r.selector.isNone
  | _ => false

/-- Whether an expression is a binary operation. -/
def Expr.isBinaryOperation : Expr → Bool
  | .BinaryOperation _ _ _ => true
  | _ => false

/-- Whether an `Except` is an error. -/
def isError {A : Type} : Except String A → Bool
  | .ok _ => false
  | .error _ => true

mutual

/-- The names of the bare `Reference` leaves of an expression. -/
def exprRefNames : Expr → List String
  | .Number _ => []
  | .Reference r => [r]
  | .PublicReference _ => []
  | .BinaryOperation l _ r => exprRefNames l ++ exprRefNames r
  | .UnaryOperation _ e => exprRefNames e
  | .FunctionCall f args => exprRefNames f ++ exprRefNamesList args
  | .FreeInput e => exprRefNames e
  | .StringLiteral _ => []
  | .Tuple items => exprRefNamesList items
  | .ArrayLiteral items => exprRefNamesList items
  | .MatchExpression s arms => exprRefNames s ++ exprRefNamesArms arms
  | .IfExpression c t e => exprRefNames c ++ exprRefNames t ++ exprRefNames e
  | .LambdaExpression _ b => exprRefNames b
  | .IndexAccess a i => exprRefNames a ++ exprRefNames i

/-- The names of the bare `Reference` leaves of a list of expressions. -/
def exprRefNamesList : List Expr → List String
  | [] => []
  | e :: t => exprRefNames e ++ exprRefNamesList t

/-- The names of the bare `Reference` leaves of match arms. -/
def exprRefNamesArms : List (Option Expr × Expr) → List String
  | [] => []
  | (none, v) :: t => exprRefNames v ++ exprRefNamesArms t
  | (some p, v) :: t => exprRefNames p ++ exprRefNames v ++ exprRefNamesArms t

end

/-- Fixture: a machine with no pc register. -/
def noPcMachine : Machine :=
  { registers := [⟨0, "A", .Write⟩], instructions := [], callable := [],
    pil := [], links := [], latch := none, operation_id := none }

/-- Fixture: the `identity` test machine of romgen.rs (one one-input,
one-output function whose body returns its input). -/
def identityVM : Machine :=
  { registers := [⟨0, "pc", .Pc⟩], instructions := [],
    callable := [("identity", CallableSymbol.Function
      ⟨⟨[⟨"x", none, some "field"⟩], some [⟨"ret", none, some "field"⟩]⟩,
        [⟨[.Return [.Reference "x"]], none⟩]⟩)],
    pil := [], links := [], latch := none, operation_id := none }

/-- Fixture: a machine whose first function spans two batches, so that
the second function's operation id skips a value. -/
def gapVM : Machine :=
  { registers := [⟨0, "pc", .Pc⟩], instructions := [],
    callable := [
      ("f", CallableSymbol.Function
        ⟨⟨[], none⟩, [⟨[.Return []], none⟩, ⟨[.Return []], none⟩]⟩),
      ("g", CallableSymbol.Function ⟨⟨[], none⟩, [⟨[.Return []], none⟩]⟩)],
    pil := [], links := [], latch := none, operation_id := none }

/-- Fixture: a machine with one instruction whose local body is a
plookup, so that the converter emits two plookup identities. -/
def plookupBodyVM : Machine :=
  { registers := [⟨0, "pc", .Pc⟩],
    instructions := [⟨0, "foo", ⟨⟨[], none⟩,
      .Local [.PlookupIdentity 0 ⟨none, [.Reference "x"]⟩
        ⟨none, [.Reference "y"]⟩]⟩⟩],
    callable := [], pil := [], links := [], latch := none,
    operation_id := none }

/-- Fixture: a one-batch ROM with a single label line, paired with
`plookupBodyVM`. -/
def labelOnlyRom : Rom := ⟨[⟨[.Label "l"], none⟩]⟩

/-- View: the machine produced by `convert_machine` (the input machine
when conversion fails). -/
def convertResult (m : Machine) (rom : Option Rom) : Machine :=
  match convert_machine m rom with
  | .ok m2 => m2
  | .error _ => m

/-- View: the converter state after `convertCore`, as invoked by the
free `convert_machine` (the fresh state when the core fails). -/
def coreState (m : Machine) (rom : Option Rom) : ASMPILConverter :=
  match (with_output_count ((m.operations.map
      fun o => (o.params.outputs.map List.length).getD 0).max?.getD 0)).convertCore
      m rom with
  | .ok (st, _) => st
  | .error _ => with_output_count 0

/-- View: the machine threaded through `convertCore`, as invoked by the
free `convert_machine`. -/
def coreMachine (m : Machine) (rom : Option Rom) : Machine :=
  match (with_output_count ((m.operations.map
      fun o => (o.params.outputs.map List.length).getD 0).max?.getD 0)).convertCore
      m rom with
  | .ok (_, m3) => m3
  | .error _ => m

/-- View: the machine component of `generate_machine_rom` (the input on
failure). -/
def romgenMachine (m : Machine) : Machine :=
  match generate_machine_rom m with
  | .ok (m2, _) => m2
  | .error _ => m

/-- View: the ROM component of `generate_machine_rom`. -/
def romgenRom (m : Machine) : Option Rom :=
  match generate_machine_rom m with
  | .ok (_, r) => r
  | .error _ => none

/-- Fixture: the assignment-then-label batch showing that the batch fold
is order-sensitive (components disjoint across statements, yet the fold
aborts because the assignment precedes the label). -/
def asgnLabelBatch : Batch :=
  ⟨[.Assignment [("A", some "X")] (.Number 5), .Label "l"], none⟩

/-- Fixture: the reversed (label first) batch, which folds fine. -/
def labelAsgnBatch : Batch :=
  ⟨[.Label "l", .Assignment [("A", some "X")] (.Number 5)], none⟩

/-- Fixture: a register with one conditioned update and a default. -/
def sampleRegister : Register :=
  ⟨[(direct_reference "c", direct_reference "v")],
    some (direct_reference "A"), .Write⟩

/-- The name of a PIL statement when it is an intermediate polynomial
definition. -/
def polyDefName : PilStatement → Option String
  | .PolynomialDefinition _ n _ => some n
  | _ => none

/-- Sortedness (strictly increasing keys) of an association list, the
invariant of the `BTreeMap` model. -/
def keysSorted {A : Type} (l : List (String × A)) : Prop :=
  l.Pairwise fun a b => strLt a.1 b.1 = true

/-- The operation ids recorded in a callable list, in order. -/
def callableOperationIds (cs : List (String × CallableSymbol)) : List F :=
  cs.filterMap fun c =>
    match c.2 with
    | .Operation o => o.id.id
    | .Function _ => none

/-- States that no statement of a converter's accumulated PIL is a bare
(selector-free) plookup. -/
def pilNoBare (st : ASMPILConverter) : Prop :=
  ∀ s ∈ st.pil, isBarePlookup s = false

/-- The last of `first :: rest`. -/
def lastCodeLine (first : CodeLine) (rest : List CodeLine) : CodeLine :=
  rest.getLastD first

/-- The code line produced by a successful batch fold whose non-final
statements contribute no write-regs, no values and no instructions: the
three exclusive components come from the last statement, labels and
debug directives are unioned across all statements. -/
def codeLineUnionSpec (first : CodeLine) (rest : List CodeLine) : CodeLine :=
  { write_regs := (lastCodeLine first rest).write_regs,
    value := (lastCodeLine first rest).value,
    instructions := (lastCodeLine first rest).instructions,
    labels := rest.foldl (fun a c => btSetExtend a c.labels) first.labels,
    debug_directives :=
      first.debug_directives ++ rest.flatMap fun c => c.debug_directives }

/-- Fixture: the code line of the label statement `l:`. -/
def labelCL : CodeLine := { labels := ["l"] }

/-- Fixture: the code line of the assignment `A <=X= 5`. -/
def asgnCL : CodeLine :=
  { write_regs := [("X", ["A"])], value := [("X", [(5, .Constant)])] }

/-- Fixture: two code lines with distinct labels. -/
def distinctLabelLines : List CodeLine :=
  [{ labels := ["a"] }, { labels := ["b"] }]

/-- Fixture: two code lines carrying the same label. -/
def dupLabelLines : List CodeLine :=
  [{ labels := ["x"] }, { labels := ["x"] }]

/-! ### Generic lemmas about `Except` and folds -/

theorem except_bind_ok {A B : Type} (a : A) (f : A → Except String B) :
    (Except.ok a >>= f) = f a := rfl

theorem except_bind_error {A B : Type} (e : String) (f : A → Except String B) :
    ((Except.error e : Except String A) >>= f) = .error e := rfl

theorem rtAssert_ok_iff {b : Bool} {msg : String} :
    rtAssert b msg = .ok () ↔ b = true := by
  cases b <;> simp [rtAssert]

theorem foldl_invariant {A B : Type} (P : B → Prop) (step : B → A → B) :
    ∀ (l : List A) (init : B), P init → (∀ acc x, P acc → P (step acc x)) →
      P (l.foldl step init)
  | [], _, h, _ => h
  | x :: t, init, h, hstep =>
    foldl_invariant P step t (step init x) (hstep init x h) hstep

theorem foldlM_except_invariant {A B : Type} (P : B → Prop)
    (step : B → A → Except String B) :
    ∀ (l : List A) (init res : B), l.foldlM step init = .ok res → P init →
      (∀ acc x res2, P acc → step acc x = .ok res2 → P res2) → P res := by
  intro l
  induction l with
  | nil =>
    intro init res h hP _
    have h2 : init = res := by simpa [List.foldlM, pure, Except.pure] using h
    exact h2 ▸ hP
  | cons x t ih =>
    intro init res h hP hstep
    rw [List.foldlM] at h
    cases hs : step init x with
    | error e => rw [hs, except_bind_error] at h; cases h
    | ok b => rw [hs, except_bind_ok] at h; exact ih b res h (hstep init x b hP hs) hstep

theorem mapM_except_forall {A B : Type} (P : B → Prop) (f : A → Except String B)
    (hf : ∀ x r, f x = .ok r → P r) :
    ∀ (l : List A) (res : List B), l.mapM f = .ok res → ∀ r ∈ res, P r := by
  intro l
  induction l with
  | nil =>
    intro res h r hr
    have h2 : res = ([] : List B) := by
      simpa [List.mapM, List.mapM.loop, pure, Except.pure] using h.symm
    subst h2; cases hr
  | cons x t ih =>
    intro res h r hr
    rw [List.mapM_cons] at h
    cases hx : f x with
    | error e => rw [hx] at h; cases h
    | ok b =>
      rw [hx] at h
      cases ht : t.mapM f with
      | error e => rw [ht] at h; cases h
      | ok bs =>
        rw [ht] at h
        rw [except_bind_ok] at h
        have h2 : res = b :: bs := by simpa using h.symm
        subst h2
        rcases List.mem_cons.mp hr with hr2 | hr2
        · exact hr2 ▸ hf x b hx
        · exact ih bs ht r hr2

/-! ### Claim C4: pc-less machines pass through untouched -/

/-- Claim C4: for every machine without a pc register, ROM generation
returns the machine unchanged paired with no ROM, and the converter
invoked without a ROM returns the machine unchanged. -/
theorem claim_C4 (m : Machine) (h : m.has_pc = false) :
    generate_machine_rom m = .ok (m, none) ∧ convert_machine m none = .ok m := by
  constructor
  · simp [generate_machine_rom, h]
  · simp [convert_machine, ASMPILConverter.convert_machine, h, rtAssert,
      except_bind_ok]

/-- Witness for C4 at a concrete pc-less machine. -/
theorem claim_C4_witness :
    noPcMachine.has_pc = false ∧
    generate_machine_rom noPcMachine = .ok (noPcMachine, none) ∧
    convert_machine noPcMachine none = .ok noPcMachine :=
  ⟨rfl, claim_C4 noPcMachine rfl⟩

/-! ### Claim C6: the register update expression -/

/-- Claim C6: a register's transition update expression is its default
when there are no conditioned updates, the sum of condition-times-value
products when there is no default, the combined sum plus
`(1 - Σ cond) · default` when both exist, and absent (producing no
update identity) when neither exists. -/
theorem claim_C6 (r : Register) :
    (r.conditioned_updates = [] → r.update_expression = r.default_update) ∧
    (r.conditioned_updates ≠ [] → r.default_update = none →
      r.update_expression =
        some (exprSum (r.conditioned_updates.map fun cv => cv.1 * cv.2))) ∧
    (∀ d, r.conditioned_updates ≠ [] → r.default_update = some d →
      r.update_expression =
        some (exprSum (r.conditioned_updates.map fun cv => cv.1 * cv.2) +
          (Expr.Number 1 - exprSum (r.conditioned_updates.map fun cv => cv.1)) * d)) ∧
    (∀ name, r.conditioned_updates = [] → r.default_update = none →
      r.update_expression = none ∧ registerUpdateStatements name r = []) := by
  obtain ⟨cu, du, ty⟩ := r
  refine ⟨?_, ?_, ?_, ?_⟩
  · intro hcu
    subst hcu
    cases du <;> rfl
  · intro hcu hdu
    subst hdu
    cases cu with
    | nil => exact absurd rfl hcu
    | cons a t => rfl
  · intro d hcu hdu
    subst hdu
    cases cu with
    | nil => exact absurd rfl hcu
    | cons a t => rfl
  · intro name hcu hdu
    subst hcu; subst hdu
    exact ⟨rfl, rfl⟩

/-- Witness for C6 at a register with one conditioned update and a
default. -/
theorem claim_C6_witness :
    sampleRegister.update_expression =
      some (exprSum (sampleRegister.conditioned_updates.map fun cv => cv.1 * cv.2) +
        (Expr.Number 1 -
          exprSum (sampleRegister.conditioned_updates.map fun cv => cv.1)) *
          direct_reference "A") :=
  (claim_C6 sampleRegister).2.2.1 (direct_reference "A")
    (by simp [sampleRegister]) rfl

/-! ### Claim C10: a pc machine demands a ROM -/

theorem convertCore_none_isError (st : ASMPILConverter) (m : Machine) :
    isError (st.convertCore m none) = true := by
  unfold ASMPILConverter.convertCore
  cases h : st.convertPreRom m with
  | error e => rfl
  | ok p => obtain ⟨st2, m2⟩ := p; rfl

/-- Claim C10: calling the converter on a machine with a pc register but
no ROM always aborts (the ROM is unconditionally unwrapped). -/
theorem claim_C10 (m : Machine) (h : m.has_pc = true) :
    isError (convert_machine m none) = true := by
  unfold convert_machine ASMPILConverter.convert_machine
  rw [h, if_neg (by decide)]
  have hcore := convertCore_none_isError
    (with_output_count ((m.operations.map
      fun o => (o.params.outputs.map List.length).getD 0).max?.getD 0)) m
  cases hc : (with_output_count ((m.operations.map
      fun o => (o.params.outputs.map List.length).getD 0).max?.getD 0)).convertCore
      m none with
  | error e => rfl
  | ok p => rw [hc] at hcore; simp [isError] at hcore

/-- Witness for C10 at a concrete machine with a pc register. -/
theorem claim_C10_witness : isError (convert_machine identityVM none) = true :=
  claim_C10 identityVM rfl

/-! ### Claim C3: the linearizer -/

theorem linearize_rec_not_bin (pfx : String) (c : Nat) (e : Expr)
    (h : e.isBinaryOperation = false) :
    linearize_rec pfx c e = .ok (c, e, []) := by
  cases e <;> simp_all [linearize_rec, Expr.isBinaryOperation]

theorem range'_glue (c a b : Nat) :
    List.range' c a ++ List.range' (c + a) b = List.range' c (a + b) := by
  rw [Nat.add_comm a b, ← List.range'_append c a b 1, Nat.one_mul]

theorem linearize_rec_names (pfx : String) :
    (e : Expr) → (c c2 : Nat) → (e2 : Expr) → (defs : List PilStatement) →
    linearize_rec pfx c e = .ok (c2, e2, defs) →
    c2 = c + defs.length ∧
    defs.map polyDefName =
      (List.range' c defs.length).map (fun k => some (intermediate_name pfx k))
  | .BinaryOperation l op r, c, c2, e2, defs, h => by
    cases op with
    | Add =>
      simp only [linearize_rec] at h
      cases h1 : linearize_rec pfx c l with
      | error e => simp only [h1, except_bind_error] at h; exact Except.noConfusion h
      | ok p =>
        obtain ⟨c1, l2, d1⟩ := p
        simp only [h1, except_bind_ok] at h
        cases h2 : linearize_rec pfx c1 r with
        | error e => simp only [h2, except_bind_error] at h; exact Except.noConfusion h
        | ok q =>
          obtain ⟨cB, r2, d2⟩ := q
          simp only [h2, except_bind_ok, Except.ok.injEq, Prod.mk.injEq] at h
          obtain ⟨hc, he, hd⟩ := h
          subst hc; subst he; subst hd
          obtain ⟨ih1c, ih1n⟩ := linearize_rec_names pfx l c c1 l2 d1 h1
          obtain ⟨ih2c, ih2n⟩ := linearize_rec_names pfx r c1 cB r2 d2 h2
          subst ih1c; subst ih2c
          constructor
          · simp [Nat.add_assoc]
          · rw [List.map_append, ih1n, ih2n, List.length_append,
              ← range'_glue c d1.length d2.length, List.map_append]
    | Sub =>
      simp only [linearize_rec] at h
      cases h1 : linearize_rec pfx c l with
      | error e => simp only [h1, except_bind_error] at h; exact Except.noConfusion h
      | ok p =>
        obtain ⟨c1, l2, d1⟩ := p
        simp only [h1, except_bind_ok] at h
        cases h2 : linearize_rec pfx c1 r with
        | error e => simp only [h2, except_bind_error] at h; exact Except.noConfusion h
        | ok q =>
          obtain ⟨cB, r2, d2⟩ := q
          simp only [h2, except_bind_ok, Except.ok.injEq, Prod.mk.injEq] at h
          obtain ⟨hc, he, hd⟩ := h
          subst hc; subst he; subst hd
          obtain ⟨ih1c, ih1n⟩ := linearize_rec_names pfx l c c1 l2 d1 h1
          obtain ⟨ih2c, ih2n⟩ := linearize_rec_names pfx r c1 cB r2 d2 h2
          subst ih1c; subst ih2c
          constructor
          · simp [Nat.add_assoc]
          · rw [List.map_append, ih1n, ih2n, List.length_append,
              ← range'_glue c d1.length d2.length, List.map_append]
    | Mul =>
      simp only [linearize_rec] at h
      cases h1 : linearize_rec pfx c l with
      | error e => simp only [h1, except_bind_error] at h; exact Except.noConfusion h
      | ok p =>
        obtain ⟨c1, l2, d1⟩ := p
        simp only [h1, except_bind_ok] at h
        cases h2 : linearize_rec pfx c1 r with
        | error e => simp only [h2, except_bind_error] at h; exact Except.noConfusion h
        | ok q =>
          obtain ⟨cB, r2, d2⟩ := q
          simp only [h2, except_bind_ok, Except.ok.injEq, Prod.mk.injEq] at h
          obtain ⟨hc, he, hd⟩ := h
          subst hc; subst he; subst hd
          obtain ⟨ih1c, ih1n⟩ := linearize_rec_names pfx l c c1 l2 d1 h1
          obtain ⟨ih2c, ih2n⟩ := linearize_rec_names pfx r c1 cB r2 d2 h2
          subst ih1c; subst ih2c
          constructor
          · simp only [List.length_append, List.length_cons, List.length_nil]
            omega
          · rw [List.map_append, List.map_append, ih1n, ih2n]
            simp only [List.length_append, List.length_cons, List.length_nil]
            rw [← range'_glue c (d1.length + d2.length) 1,
              ← range'_glue c d1.length d2.length, List.map_append,
              List.map_append]
            simp [polyDefName, List.range'_one, Nat.add_assoc]
    | Div => simp [linearize_rec] at h
    | Mod => simp [linearize_rec] at h
    | Pow => simp [linearize_rec] at h
    | BinaryAnd => simp [linearize_rec] at h
    | BinaryXor => simp [linearize_rec] at h
    | BinaryOr => simp [linearize_rec] at h
    | ShiftLeft => simp [linearize_rec] at h
    | ShiftRight => simp [linearize_rec] at h
    | LogicalOr => simp [linearize_rec] at h
    | LogicalAnd => simp [linearize_rec] at h
    | Less => simp [linearize_rec] at h
    | LessEqual => simp [linearize_rec] at h
    | Equal => simp [linearize_rec] at h
    | NotEqual => simp [linearize_rec] at h
    | GreaterEqual => simp [linearize_rec] at h
    | Greater => simp [linearize_rec] at h
  | .Number n, c, c2, e2, defs, h => by
    simp only [linearize_rec, Except.ok.injEq, Prod.mk.injEq] at h
    obtain ⟨hc, _, hd⟩ := h
    subst hc; subst hd
    simp
  | .Reference n, c, c2, e2, defs, h => by
    simp only [linearize_rec, Except.ok.injEq, Prod.mk.injEq] at h
    obtain ⟨hc, _, hd⟩ := h
    subst hc; subst hd
    simp
  | .PublicReference n, c, c2, e2, defs, h => by
    simp only [linearize_rec, Except.ok.injEq, Prod.mk.injEq] at h
    obtain ⟨hc, _, hd⟩ := h
    subst hc; subst hd
    simp
  | .UnaryOperation op e, c, c2, e2, defs, h => by
    simp only [linearize_rec, Except.ok.injEq, Prod.mk.injEq] at h
    obtain ⟨hc, _, hd⟩ := h
    subst hc; subst hd
    simp
  | .FunctionCall f args, c, c2, e2, defs, h => by
    simp only [linearize_rec, Except.ok.injEq, Prod.mk.injEq] at h
    obtain ⟨hc, _, hd⟩ := h
    subst hc; subst hd
    simp
  | .FreeInput e, c, c2, e2, defs, h => by
    simp only [linearize_rec, Except.ok.injEq, Prod.mk.injEq] at h
    obtain ⟨hc, _, hd⟩ := h
    subst hc; subst hd
    simp
  | .StringLiteral s, c, c2, e2, defs, h => by
    simp only [linearize_rec, Except.ok.injEq, Prod.mk.injEq] at h
    obtain ⟨hc, _, hd⟩ := h
    subst hc; subst hd
    simp
  | .Tuple items, c, c2, e2, defs, h => by
    simp only [linearize_rec, Except.ok.injEq, Prod.mk.injEq] at h
    obtain ⟨hc, _, hd⟩ := h
    subst hc; subst hd
    simp
  | .ArrayLiteral items, c, c2, e2, defs, h => by
    simp only [linearize_rec, Except.ok.injEq, Prod.mk.injEq] at h
    obtain ⟨hc, _, hd⟩ := h
    subst hc; subst hd
    simp
  | .MatchExpression s arms, c, c2, e2, defs, h => by
    simp only [linearize_rec, Except.ok.injEq, Prod.mk.injEq] at h
    obtain ⟨hc, _, hd⟩ := h
    subst hc; subst hd
    simp
  | .IfExpression a b e3, c, c2, e2, defs, h => by
    simp only [linearize_rec, Except.ok.injEq, Prod.mk.injEq] at h
    obtain ⟨hc, _, hd⟩ := h
    subst hc; subst hd
    simp
  | .LambdaExpression ps b, c, c2, e2, defs, h => by
    simp only [linearize_rec, Except.ok.injEq, Prod.mk.injEq] at h
    obtain ⟨hc, _, hd⟩ := h
    subst hc; subst hd
    simp
  | .IndexAccess a i, c, c2, e2, defs, h => by
    simp only [linearize_rec, Except.ok.injEq, Prod.mk.injEq] at h
    obtain ⟨hc, _, hd⟩ := h
    subst hc; subst hd
    simp

/-- Claim C3 (amended): the linearizer recurses through additions and
subtractions threading the counter, emits for each multiplication a
fresh intermediate polynomial definition named `<prefix>`, `<prefix>_1`,
`<prefix>_2`, … and returns a reference to the last one; an expression
that is not a binary operation is returned as-is unchanged, while binary
operations other than `+`, `-`, `*` abort with an error. -/
theorem claim_C3 (pfx : String) (c : Nat) (e : Expr) :
    (∀ c2 e2 defs, linearize_rec pfx c e = .ok (c2, e2, defs) →
      c2 = c + defs.length ∧
      defs.map polyDefName =
        (List.range' c defs.length).map fun k => some (intermediate_name pfx k)) ∧
    (e.isBinaryOperation = false → linearize_rec pfx c e = .ok (c, e, [])) ∧
    (∀ l r, e = .BinaryOperation l .Mul r →
      ∀ c2 e2 defs, linearize_rec pfx c e = .ok (c2, e2, defs) →
      defs ≠ [] ∧ e2 = direct_reference (intermediate_name pfx (c2 - 1))) := by
  refine ⟨fun c2 e2 defs h => linearize_rec_names pfx e c c2 e2 defs h,
    fun h => linearize_rec_not_bin pfx c e h, ?_⟩
  intro l r he c2 e2 defs h
  subst he
  simp only [linearize_rec] at h
  cases h1 : linearize_rec pfx c l with
  | error e => simp only [h1, except_bind_error] at h; exact Except.noConfusion h
  | ok p =>
    obtain ⟨c1, l2, d1⟩ := p
    simp only [h1, except_bind_ok] at h
    cases h2 : linearize_rec pfx c1 r with
    | error e => simp only [h2, except_bind_error] at h; exact Except.noConfusion h
    | ok q =>
      obtain ⟨cB, r2, d2⟩ := q
      simp only [h2, except_bind_ok, Except.ok.injEq, Prod.mk.injEq] at h
      obtain ⟨hc, he2, hd⟩ := h
      subst hc; subst he2; subst hd
      constructor
      · simp
      · simp

/-- Witness for C3: linearizing `(a + b) * c` with prefix `p` emits one
definition named by the counter. -/
theorem claim_C3_witness :
    (1 : Nat) = 0 + ([PilStatement.PolynomialDefinition 0 (intermediate_name "p" 0)
        ((direct_reference "a" + direct_reference "b") *
          direct_reference "cc")] : List PilStatement).length ∧
    ([PilStatement.PolynomialDefinition 0 (intermediate_name "p" 0)
        ((direct_reference "a" + direct_reference "b") *
          direct_reference "cc")] : List PilStatement).map polyDefName =
      (List.range' 0 ([PilStatement.PolynomialDefinition 0 (intermediate_name "p" 0)
        ((direct_reference "a" + direct_reference "b") *
          direct_reference "cc")] : List PilStatement).length).map
        fun k => some (intermediate_name "p" k) :=
  (claim_C3 "p" 0
      ((direct_reference "a" + direct_reference "b") * direct_reference "cc")).1
    1 (direct_reference (intermediate_name "p" 0))
    [PilStatement.PolynomialDefinition 0 (intermediate_name "p" 0)
      ((direct_reference "a" + direct_reference "b") * direct_reference "cc")]
    (by rfl)

/-- Counterexample for C3 as frozen: a division — an expression of
"any other form" — is not returned as-is but aborts the linearizer. -/
theorem claim_C3_counterexample :
    linearize_rec "p" 0
        (.BinaryOperation (direct_reference "a") .Div (direct_reference "b")) =
      .error "/ is not supported when linearizing" ∧
    linearize_rec "p" 0
        (.BinaryOperation (direct_reference "a") .Div (direct_reference "b")) ≠
      .ok (0, .BinaryOperation (direct_reference "a") .Div (direct_reference "b"), []) :=
  ⟨rfl, fun h => Except.noConfusion h⟩

/-! ### Elimination of a successful ROM generation -/

theorem has_pc_pc_isSome {m : Machine} (h : m.has_pc = true) :
    ∃ pc, m.pc = some pc := by
  unfold Machine.has_pc at h
  rw [List.any_eq_true] at h
  obtain ⟨r, hr, hty⟩ := h
  have hfind : (m.registers.find? fun r => r.ty = RegisterTy.Pc).isSome := by
    rw [List.find?_isSome]
    exact ⟨r, hr, hty⟩
  unfold Machine.pc
  cases hf : m.registers.find? fun r => r.ty = RegisterTy.Pc with
  | none => rw [hf] at hfind; cases hfind
  | some r2 => exact ⟨r2.name, rfl⟩

theorem generate_machine_rom_ok_elim {m m2 : Machine} {rom : Rom}
    (h : generate_machine_rom m = .ok (m2, some rom)) :
    m.is_only_functions = true ∧
    ∃ cs2 rom2,
      romgenProcessFunctions (maxOutputCount m) m.callable dispatcherRom =
        .ok (cs2, rom2) ∧
      m2.callable = cs2 ∧ rom.statements = rom2 ++ [sinkBatch] := by
  by_cases hpc : m.has_pc = false
  · rw [generate_machine_rom, if_pos hpc] at h
    simp at h
  · have hpc2 : m.has_pc = true := by revert hpc; cases m.has_pc <;> simp
    rw [generate_machine_rom, hpc2, if_neg (by decide)] at h
    cases hof : m.is_only_functions with
    | false => rw [hof] at h; simp [rtAssert, except_bind_error] at h
    | true =>
      rw [hof] at h
      refine ⟨rfl, ?_⟩
      obtain ⟨pc, hpcn⟩ := has_pc_pc_isSome hpc2
      rw [hpcn] at h
      simp only [rtAssert, if_pos rfl, except_bind_ok] at h
      cases hpf : romgenProcessFunctions (maxOutputCount m) m.callable dispatcherRom with
      | error e =>
        rw [hpf] at h
        exact Except.noConfusion
          (show (Except.error e : Except String (Machine × Option Rom)) =
            Except.ok (m2, some rom) from h)
      | ok p =>
        obtain ⟨cs2, rom2⟩ := p
        rw [hpf] at h
        have h3 := Except.ok.inj h
        have hfst := congrArg Prod.fst h3
        have hsnd := congrArg Prod.snd h3
        refine ⟨cs2, rom2, rfl, ?_, ?_⟩
        · rw [show m2 = (m2, some rom).fst from rfl, ← hfst]
        · have h4 : rom = Rom.mk (rom2 ++ [sinkBatch]) := by
            have h5 := Option.some.inj
              (show some (Rom.mk (rom2 ++ [sinkBatch])) = some rom from hsnd)
            exact h5.symm
          rw [h4]

/-! ### Structure of the per-function batches -/

theorem setLastBatchReasonLabel_statements : ∀ (l : List Batch),
    (setLastBatchReasonLabel l).map Batch.statements = l.map Batch.statements
  | [] => rfl
  | [_] => rfl
  | b :: b2 :: t => by
    rw [show setLastBatchReasonLabel (b :: b2 :: t) =
        b :: setLastBatchReasonLabel (b2 :: t) from rfl]
    simp [setLastBatchReasonLabel_statements (b2 :: t)]

theorem setLastBatchReasonLabel_length (l : List Batch) :
    (setLastBatchReasonLabel l).length = l.length := by
  have h := congrArg List.length (setLastBatchReasonLabel_statements l)
  simpa using h

theorem processFunctionBatches_ok {O : Nat} {name : String}
    {f : FunctionSymbol} {bs : List Batch}
    (h : processFunctionBatches O name f = .ok bs) :
    f.body ≠ [] ∧ bs.length = f.body.length ∧
    ∀ b ∈ bs, ∀ s ∈ b.statements,
      (∃ lb, s = .Label lb) ∨
      ∃ s0, s = pad_return_arguments
        (substitute_name_in_statement_expressions s0 (inputSubstitutionOf f)) O := by
  cases hb : f.body with
  | nil =>
    rw [processFunctionBatches, hb] at h
    exact Except.noConfusion
      (show (Except.error
          "function should have at least one statement as it must return" :
          Except String (List Batch)) = Except.ok bs from h)
  | cons c0 cs =>
    rw [processFunctionBatches, hb] at h
    have h2 := Except.ok.inj h
    refine ⟨by simp [hb], ?_, ?_⟩
    · rw [← h2, setLastBatchReasonLabel_length]
      simp [hb]
    · intro b hbmem s hs
      rw [← h2] at hbmem
      have hstmts := List.mem_map_of_mem Batch.statements hbmem
      rw [setLastBatchReasonLabel_statements] at hstmts
      simp only [List.map_cons, List.map_map] at hstmts
      rcases List.mem_cons.mp hstmts with hfirst | hrest
      · rw [hfirst] at hs
        rcases List.mem_cons.mp hs with hlab | hmem2
        · exact Or.inl ⟨s!"_{name}", hlab⟩
        · obtain ⟨s0, _, hs0⟩ := List.mem_map.mp hmem2
          exact Or.inr ⟨s0, hs0.symm⟩
      · obtain ⟨b2, _, hb2⟩ := List.mem_map.mp hrest
        rw [← hb2] at hs
        obtain ⟨s0, _, hs0⟩ := List.mem_map.mp hs
        exact Or.inr ⟨s0, hs0.symm⟩

/-! ### Claim C1: operation id assignment -/

theorem romgenPF_elim (O : Nat) :
    ∀ (cs : List (String × CallableSymbol)) (rom : List Batch)
      (cs2 : List (String × CallableSymbol)) (rom2 : List Batch),
      romgenProcessFunctions O cs rom = .ok (cs2, rom2) →
      callableOperationIds cs2 = operationIdsSpec rom.length cs ∧
      (∀ f ∈ functionsOfCallables cs, f.body ≠ []) ∧
      (∀ P : Batch → Prop, (∀ b ∈ rom, P b) →
        (∀ name f bs, (name, CallableSymbol.Function f) ∈ cs →
          processFunctionBatches O name f = .ok bs → ∀ b ∈ bs, P b) →
        ∀ b ∈ rom2, P b)
  | [], rom, cs2, rom2, h => by
    have h2 := Except.ok.inj h
    injection h2 with hfst hsnd
    subst hfst; subst hsnd
    refine ⟨rfl, ?_, ?_⟩
    · intro f hf; cases hf
    · intro P hbase _ b hb
      exact hbase b hb
  | (name, .Operation o) :: rest, rom, cs2, rom2, h =>
    Except.noConfusion
      (show (Except.error "internal error: entered unreachable code" :
        Except String (List (String × CallableSymbol) × List Batch)) =
        Except.ok (cs2, rom2) from h)
  | (name, .Function f) :: rest, rom, cs2, rom2, h => by
    have h2 : (do
        let batches ← processFunctionBatches O name f
        let (rest2, rom3) ← romgenProcessFunctions O rest (rom ++ batches)
        Except.ok ((name, CallableSymbol.Operation
          ⟨0, ⟨some ((rom.length : Int) : F)⟩,
            ⟨operationInputsOf f, operationOutputsOf f⟩⟩) :: rest2, rom3)) =
        Except.ok (cs2, rom2) := h
    cases hpb : processFunctionBatches O name f with
    | error e =>
      rw [hpb] at h2
      exact Except.noConfusion
        (show (Except.error e :
          Except String (List (String × CallableSymbol) × List Batch)) =
          Except.ok (cs2, rom2) from h2)
    | ok bs =>
      rw [hpb] at h2
      have h3 : (do
          let (rest2, rom3) ← romgenProcessFunctions O rest (rom ++ bs)
          Except.ok ((name, CallableSymbol.Operation
            ⟨0, ⟨some ((rom.length : Int) : F)⟩,
              ⟨operationInputsOf f, operationOutputsOf f⟩⟩) :: rest2, rom3)) =
          Except.ok (cs2, rom2) := h2
      cases hrec : romgenProcessFunctions O rest (rom ++ bs) with
      | error e =>
        rw [hrec] at h3
        exact Except.noConfusion
          (show (Except.error e :
            Except String (List (String × CallableSymbol) × List Batch)) =
            Except.ok (cs2, rom2) from h3)
      | ok p =>
        obtain ⟨rest2, rom3⟩ := p
        rw [hrec] at h3
        have h4 := Except.ok.inj h3
        injection h4 with hfst hsnd
        subst hfst; subst hsnd
        obtain ⟨hne, hlen, _⟩ := processFunctionBatches_ok hpb
        obtain ⟨ihids, ihfn, ihtr⟩ := romgenPF_elim O rest (rom ++ bs) rest2 rom3 hrec
        refine ⟨?_, ?_, ?_⟩
        · rw [show callableOperationIds ((name, CallableSymbol.Operation
            ⟨0, ⟨some ((rom.length : Int) : F)⟩,
              ⟨operationInputsOf f, operationOutputsOf f⟩⟩) :: rest2) =
            ((rom.length : Int) : F) :: callableOperationIds rest2 from rfl]
          rw [ihids]
          rw [show operationIdsSpec rom.length ((name, CallableSymbol.Function f) :: rest) =
            ((rom.length : Int) : F) ::
              operationIdsSpec (rom.length + f.body.length) rest from rfl]
          rw [List.length_append, hlen]
        · intro g hg
          rcases List.mem_cons.mp hg with hg1 | hg2
          · rw [hg1]; exact hne
          · exact ihfn g hg2
        · intro P hbase hfns b hb
          refine ihtr P ?_ ?_ b hb
          · intro b2 hb2
            rcases List.mem_append.mp hb2 with hb3 | hb3
            · exact hbase b2 hb3
            · exact hfns name f bs (List.mem_cons_self _ _) hpb b2 hb3
          · intro name2 f2 bs2 hmem hpb2 b2 hb2
            exact hfns name2 f2 bs2 (List.mem_cons_of_mem _ hmem) hpb2 b2 hb2

theorem operationIdsSpec_chain :
    ∀ (cs : List (String × CallableSymbol)) (s : Nat),
      (∀ f ∈ functionsOfCallables cs, f.body ≠ []) →
      List.Chain' (fun a b => a < b) (operationIdsSpec s cs) ∧
      ∀ x ∈ operationIdsSpec s cs, ((s : Int) : F) ≤ x
  | [], s, h => by simp [operationIdsSpec]
  | (name, .Operation o) :: rest, s, h => by
    have ih := operationIdsSpec_chain rest s (fun g hg => h g hg)
    rw [show operationIdsSpec s ((name, CallableSymbol.Operation o) :: rest) =
      operationIdsSpec s rest from rfl]
    exact ih
  | (name, .Function f) :: rest, s, h => by
    have hne : f.body ≠ [] := h f (List.mem_cons_self _ _)
    have ih := operationIdsSpec_chain rest (s + f.body.length)
      (fun g hg => h g (List.mem_cons_of_mem _ hg))
    have hlen : 1 ≤ f.body.length := List.length_pos.mpr hne
    rw [show operationIdsSpec s ((name, CallableSymbol.Function f) :: rest) =
      ((s : Int) : F) :: operationIdsSpec (s + f.body.length) rest from rfl]
    constructor
    · rw [List.chain'_cons']
      refine ⟨?_, ih.1⟩
      intro y hy
      have hmem := List.mem_of_mem_head? hy
      have h2 := ih.2 y hmem
      show ((s : Int) : F) < y
      push_cast at h2 ⊢
      omega
    · intro x hx
      rcases List.mem_cons.mp hx with rfl | hx2
      · exact le_refl _
      · have h2 := ih.2 x hx2
        push_cast at h2 ⊢
        omega

/-- Claim C1 (amended): after ROM generation, each function's recorded
operation id equals the ROM length at the moment of its insertion — 2
for the first function (the dispatcher occupies two batches), then
growing by the previous function's batch count — so the ids are strictly
increasing from 2 (no duplicates), but they skip values whenever a
function spans more than one batch. -/
theorem claim_C1 (m m2 : Machine) (rom : Rom)
    (h : generate_machine_rom m = .ok (m2, some rom)) :
    m2.operationIds = operationIdsSpec 2 m.callable ∧
    List.Chain' (fun a b => a < b) m2.operationIds ∧
    ∀ x ∈ m2.operationIds, (2 : F) ≤ x := by
  obtain ⟨hof, cs2, rom2, hpf, hcall, _⟩ := generate_machine_rom_ok_elim h
  obtain ⟨hids, hfn, _⟩ :=
    romgenPF_elim (maxOutputCount m) m.callable dispatcherRom cs2 rom2 hpf
  have hm2 : m2.operationIds = callableOperationIds cs2 := by
    rw [show m2.operationIds = callableOperationIds m2.callable from rfl, hcall]
  have hspec : m2.operationIds = operationIdsSpec 2 m.callable := by
    rw [hm2, hids, show dispatcherRom.length = 2 from rfl]
  obtain ⟨hchain, hge⟩ := operationIdsSpec_chain m.callable 2 hfn
  refine ⟨hspec, ?_, ?_⟩
  · rw [hspec]; exact hchain
  · intro x hx
    rw [hspec] at hx
    have h2 := hge x hx
    push_cast at h2
    exact h2

/-- Witness for C1 at the two-batch fixture: the ids are assigned by ROM
position and strictly increase. -/
theorem claim_C1_witness :
    (romgenMachine gapVM).operationIds = operationIdsSpec 2 gapVM.callable ∧
    List.Chain' (fun a b => a < b) (romgenMachine gapVM).operationIds := by
  have h := claim_C1 gapVM (romgenMachine gapVM)
    ((romgenRom gapVM).getD ⟨[]⟩) (by rfl)
  exact ⟨h.1, h.2.1⟩

/-- Counterexample for C1 as frozen: the gap machine's ids are `[2, 4]`,
not a gapless prefix of the naturals starting at 2. -/
theorem claim_C1_counterexample :
    romgenOpIds gapVM = [2, 4] ∧ ¬ isGaplessFromTwo (romgenOpIds gapVM) := by
  constructor
  · rfl
  · rw [show romgenOpIds gapVM = [2, 4] from rfl]
    unfold isGaplessFromTwo
    decide

/-! ### Claim C5: return padding -/

theorem pad_return_arguments_return (vs : List Expr) (O : Nat) :
    pad_return_arguments (.Return vs) O =
      .Return (vs.take O ++ List.replicate (O - vs.length) (Expr.Number 0)) := by
  rw [pad_return_arguments]
  congr 1
  rw [List.take_append_eq_append_take, List.take_replicate]
  congr 2
  exact Nat.min_eq_left (Nat.sub_le _ _)

theorem padded_return_length (vs : List Expr) (O : Nat) :
    (vs.take O ++ List.replicate (O - vs.length) (Expr.Number 0)).length = O := by
  simp [List.length_take]
  omega

theorem pipeline_return_length (σ : List (String × String)) (O : Nat)
    (s : FunctionStatement) (vs : List Expr)
    (h : pad_return_arguments
      (substitute_name_in_statement_expressions s σ) O = .Return vs) :
    vs.length = O := by
  cases s with
  | Assignment lhs rhs =>
    simp [substitute_name_in_statement_expressions,
      FunctionStatement.mapExpressions, pad_return_arguments] at h
  | Instruction n inputs =>
    simp [substitute_name_in_statement_expressions,
      FunctionStatement.mapExpressions, pad_return_arguments] at h
  | Label n =>
    simp [substitute_name_in_statement_expressions,
      FunctionStatement.mapExpressions, pad_return_arguments] at h
  | DebugDirective d =>
    simp [substitute_name_in_statement_expressions,
      FunctionStatement.mapExpressions, pad_return_arguments] at h
  | Return vs0 =>
    rw [show substitute_name_in_statement_expressions (.Return vs0) σ =
      .Return (vs0.map (substituteReferences σ)) from rfl,
      pad_return_arguments_return] at h
    have h2 : vs = (vs0.map (substituteReferences σ)).take O ++
        List.replicate (O - (vs0.map (substituteReferences σ)).length)
          (Expr.Number 0) := by
      injection h with h3
      exact h3.symm
    rw [h2]
    exact padded_return_length _ O

/-- Claim C5: after ROM generation of a machine with a pc, every `Return`
in the ROM has exactly the maximum output count of arguments — each
return value list is padded on the right with `Number(0)` literals and
truncated to that arity, so shorter returns end in trailing zeros. -/
theorem claim_C5 (m m2 : Machine) (rom : Rom)
    (h : generate_machine_rom m = .ok (m2, some rom)) :
    (∀ b ∈ rom.statements, ∀ s ∈ b.statements, ∀ vs,
      s = FunctionStatement.Return vs → vs.length = maxOutputCount m) ∧
    (∀ vs O, pad_return_arguments (FunctionStatement.Return vs) O =
      FunctionStatement.Return
        (vs.take O ++ List.replicate (O - vs.length) (Expr.Number 0))) := by
  refine ⟨?_, fun vs O => pad_return_arguments_return vs O⟩
  obtain ⟨hof, cs2, rom2, hpf, hcall, hstmts⟩ := generate_machine_rom_ok_elim h
  obtain ⟨_, _, htr⟩ :=
    romgenPF_elim (maxOutputCount m) m.callable dispatcherRom cs2 rom2 hpf
  intro b hb s hs vs hsvs
  rw [hstmts] at hb
  rcases List.mem_append.mp hb with hb2 | hb2
  · refine htr (fun b => ∀ s ∈ b.statements, ∀ vs,
        s = FunctionStatement.Return vs → vs.length = maxOutputCount m)
      ?_ ?_ b hb2 s hs vs hsvs
    · intro b2 hb3 s2 hs2 vs2 hsvs2
      simp only [dispatcherRom, Batch.from_statements, Batch.set_reason,
        List.mem_cons, List.mem_singleton] at hb3
      rcases hb3 with rfl | rfl | hfalse
      · simp only [List.mem_cons, List.not_mem_nil] at hs2
        rcases hs2 with rfl | rfl | hfalse2
        · cases hsvs2
        · cases hsvs2
        · cases hfalse2
      · simp only [List.mem_cons, List.not_mem_nil] at hs2
        rcases hs2 with rfl | hfalse2
        · cases hsvs2
        · cases hfalse2
      · cases hfalse
    · intro name f bs hmem hpb b2 hb3 s2 hs2 vs2 hsvs2
      obtain ⟨_, _, hchar⟩ := processFunctionBatches_ok hpb
      rcases hchar b2 hb3 s2 hs2 with ⟨lb, hlb⟩ | ⟨s0, hs0⟩
      · rw [hlb] at hsvs2; cases hsvs2
      · rw [hs0] at hsvs2
        exact pipeline_return_length (inputSubstitutionOf f) (maxOutputCount m)
          s0 vs2 hsvs2
  · rw [List.mem_singleton] at hb2
    rw [hb2] at hs
    simp only [sinkBatch, Batch.from_statements, List.mem_cons,
      List.not_mem_nil] at hs
    rcases hs with rfl | rfl | hfalse
    · cases hsvs
    · cases hsvs
    · cases hfalse

/-- Witness for C5: the padding equation at a concrete return. -/
theorem claim_C5_witness :
    pad_return_arguments (FunctionStatement.Return []) 2 =
      FunctionStatement.Return
        (List.take 2 [] ++
          List.replicate (2 - List.length ([] : List Expr)) (Expr.Number 0)) :=
  (claim_C5 identityVM (romgenMachine identityVM)
    ((romgenRom identityVM).getD ⟨[]⟩) (by rfl)).2 [] 2

/-! ### Claim C8: substitution touches only reference leaves -/

mutual

theorem substituteReferences_eq_self (σ : List (String × String)) :
    (e : Expr) → (∀ n ∈ exprRefNames e, σ.lookup n = none) →
    substituteReferences σ e = e
  | .Number _, _ => rfl
  | .Reference r, h => by
    have h2 : σ.lookup r = none := h r (List.mem_singleton.mpr rfl)
    show Expr.Reference ((σ.lookup r).getD r) = Expr.Reference r
    rw [h2]
    rfl
  | .PublicReference _, _ => rfl
  | .BinaryOperation l op r, h => by
    show Expr.BinaryOperation (substituteReferences σ l) op
      (substituteReferences σ r) = Expr.BinaryOperation l op r
    rw [substituteReferences_eq_self σ l
        (fun n hn => h n (List.mem_append.mpr (Or.inl hn))),
      substituteReferences_eq_self σ r
        (fun n hn => h n (List.mem_append.mpr (Or.inr hn)))]
  | .UnaryOperation op e, h => by
    show Expr.UnaryOperation op (substituteReferences σ e) =
      Expr.UnaryOperation op e
    rw [substituteReferences_eq_self σ e h]
  | .FunctionCall f args, h => by
    show Expr.FunctionCall (substituteReferences σ f)
      (substituteReferencesList σ args) = Expr.FunctionCall f args
    rw [substituteReferences_eq_self σ f
        (fun n hn => h n (List.mem_append.mpr (Or.inl hn))),
      substituteReferencesList_eq_self σ args
        (fun n hn => h n (List.mem_append.mpr (Or.inr hn)))]
  | .FreeInput e, h => by
    show Expr.FreeInput (substituteReferences σ e) = Expr.FreeInput e
    rw [substituteReferences_eq_self σ e h]
  | .StringLiteral _, _ => rfl
  | .Tuple items, h => by
    show Expr.Tuple (substituteReferencesList σ items) = Expr.Tuple items
    rw [substituteReferencesList_eq_self σ items h]
  | .ArrayLiteral items, h => by
    show Expr.ArrayLiteral (substituteReferencesList σ items) =
      Expr.ArrayLiteral items
    rw [substituteReferencesList_eq_self σ items h]
  | .MatchExpression s arms, h => by
    show Expr.MatchExpression (substituteReferences σ s)
      (substituteReferencesArms σ arms) = Expr.MatchExpression s arms
    rw [substituteReferences_eq_self σ s
        (fun n hn => h n (List.mem_append.mpr (Or.inl hn))),
      substituteReferencesArms_eq_self σ arms
        (fun n hn => h n (List.mem_append.mpr (Or.inr hn)))]
  | .IfExpression c t e, h => by
    show Expr.IfExpression (substituteReferences σ c) (substituteReferences σ t)
      (substituteReferences σ e) = Expr.IfExpression c t e
    rw [substituteReferences_eq_self σ c
        (fun n hn => h n (List.mem_append.mpr
          (Or.inl (List.mem_append.mpr (Or.inl hn))))),
      substituteReferences_eq_self σ t
        (fun n hn => h n (List.mem_append.mpr
          (Or.inl (List.mem_append.mpr (Or.inr hn))))),
      substituteReferences_eq_self σ e
        (fun n hn => h n (List.mem_append.mpr (Or.inr hn)))]
  | .LambdaExpression ps b, h => by
    show Expr.LambdaExpression ps (substituteReferences σ b) =
      Expr.LambdaExpression ps b
    rw [substituteReferences_eq_self σ b h]
  | .IndexAccess a i, h => by
    show Expr.IndexAccess (substituteReferences σ a) (substituteReferences σ i) =
      Expr.IndexAccess a i
    rw [substituteReferences_eq_self σ a
        (fun n hn => h n (List.mem_append.mpr (Or.inl hn))),
      substituteReferences_eq_self σ i
        (fun n hn => h n (List.mem_append.mpr (Or.inr hn)))]

theorem substituteReferencesList_eq_self (σ : List (String × String)) :
    (l : List Expr) → (∀ n ∈ exprRefNamesList l, σ.lookup n = none) →
    substituteReferencesList σ l = l
  | [], _ => rfl
  | e :: t, h => by
    show substituteReferences σ e :: substituteReferencesList σ t = e :: t
    rw [substituteReferences_eq_self σ e
        (fun n hn => h n (List.mem_append.mpr (Or.inl hn))),
      substituteReferencesList_eq_self σ t
        (fun n hn => h n (List.mem_append.mpr (Or.inr hn)))]

theorem substituteReferencesArms_eq_self (σ : List (String × String)) :
    (arms : List (Option Expr × Expr)) →
    (∀ n ∈ exprRefNamesArms arms, σ.lookup n = none) →
    substituteReferencesArms σ arms = arms
  | [], _ => rfl
  | (none, v) :: t, h => by
    show (none, substituteReferences σ v) :: substituteReferencesArms σ t =
      (none, v) :: t
    rw [substituteReferences_eq_self σ v
        (fun n hn => h n (List.mem_append.mpr (Or.inl hn))),
      substituteReferencesArms_eq_self σ t
        (fun n hn => h n (List.mem_append.mpr (Or.inr hn)))]
  | (some p, v) :: t, h => by
    show (some (substituteReferences σ p), substituteReferences σ v) ::
      substituteReferencesArms σ t = (some p, v) :: t
    rw [substituteReferences_eq_self σ p
        (fun n hn => h n (List.mem_append.mpr
          (Or.inl (List.mem_append.mpr (Or.inl hn))))),
      substituteReferences_eq_self σ v
        (fun n hn => h n (List.mem_append.mpr
          (Or.inl (List.mem_append.mpr (Or.inr hn))))),
      substituteReferencesArms_eq_self σ t
        (fun n hn => h n (List.mem_append.mpr (Or.inr hn)))]

end

/-- Claim C8: input substitution rewrites only bare `Reference` leaves of
the statement's expressions; assignment left-hand sides, statement names
and labels are untouched, and expressions containing no substituted
reference are returned unchanged. -/
theorem claim_C8 :
    (∀ (σ : List (String × String)) lhs rhs,
      substitute_name_in_statement_expressions (.Assignment lhs rhs) σ =
        .Assignment lhs (substituteReferences σ rhs)) ∧
    (∀ (σ : List (String × String)) n inputs,
      substitute_name_in_statement_expressions (.Instruction n inputs) σ =
        .Instruction n (inputs.map (substituteReferences σ))) ∧
    (∀ (σ : List (String × String)) l,
      substitute_name_in_statement_expressions (.Label l) σ = .Label l) ∧
    (∀ (σ : List (String × String)) d,
      substitute_name_in_statement_expressions (.DebugDirective d) σ =
        .DebugDirective d) ∧
    (∀ (σ : List (String × String)) vs,
      substitute_name_in_statement_expressions (.Return vs) σ =
        .Return (vs.map (substituteReferences σ))) ∧
    (∀ (σ : List (String × String)) n,
      substituteReferences σ (.Reference n) = .Reference ((σ.lookup n).getD n)) ∧
    (∀ (σ : List (String × String)) e,
      (∀ n ∈ exprRefNames e, σ.lookup n = none) →
      substituteReferences σ e = e) :=
  ⟨fun _ _ _ => rfl, fun _ _ _ => rfl, fun _ _ => rfl, fun _ _ => rfl,
   fun _ _ => rfl, fun _ _ => rfl,
   fun σ e h => substituteReferences_eq_self σ e h⟩

/-- Witness for C8 at a concrete assignment statement. -/
theorem claim_C8_witness :
    substitute_name_in_statement_expressions
        (.Assignment [("A", some "X")] (direct_reference "w")) [("x", "y")] =
      .Assignment [("A", some "X")]
        (substituteReferences [("x", "y")] (direct_reference "w")) ∧
    substituteReferences [("x", "y")] (.Number 7) = .Number 7 :=
  ⟨claim_C8.1 [("x", "y")] [("A", some "X")] (direct_reference "w"),
   claim_C8.2.2.2.2.2.2 [("x", "y")] (.Number 7)
     (by intro n hn; simp [exprRefNames] at hn)⟩

/-! ### Claim C9: label positions -/

theorem lookup_none_iff {A : Type} (a : String) :
    ∀ (l : List (String × A)), (l.lookup a = none ↔ a ∉ l.map Prod.fst)
  | [] => by simp
  | (k, v) :: t => by
    rw [List.lookup]
    cases hbeq : a == k with
    | true =>
      have hak : a = k := eq_of_beq hbeq
      subst hak
      simp
    | false =>
      have hak : a ≠ k := ne_of_beq_false hbeq
      simp [lookup_none_iff a t, hak]

theorem lookup_some_iff_mem {A : Type} [DecidableEq A] (a : String) (i : A) :
    ∀ (l : List (String × A)), (l.map Prod.fst).Nodup →
      (l.lookup a = some i ↔ (a, i) ∈ l)
  | [], _ => by simp
  | (k, v) :: t, h => by
    rw [List.lookup]
    simp only [List.map_cons, List.nodup_cons] at h
    obtain ⟨hknot, hnd⟩ := h
    cases hbeq : a == k with
    | true =>
      have hak : a = k := eq_of_beq hbeq
      subst hak
      constructor
      · intro hv
        have h2 : v = i := by simpa using hv
        subst h2
        exact List.mem_cons_self _ _
      · intro hmem
        rcases List.mem_cons.mp hmem with heq | hmem2
        · injection heq with _ h2
          rw [h2]
        · exact absurd (List.mem_map_of_mem Prod.fst hmem2) hknot
    | false =>
      have hak : a ≠ k := ne_of_beq_false hbeq
      rw [lookup_some_iff_mem a i t hnd]
      constructor
      · exact fun hm => List.mem_cons_of_mem _ hm
      · intro hm
        rcases List.mem_cons.mp hm with heq | hm2
        · exact absurd (congrArg Prod.fst heq) hak
        · exact hm2

theorem labelFold_nodup :
    ∀ (pairs acc : List (String × Nat)),
      (((acc ++ pairs).map Prod.fst).Nodup) →
      pairs.foldlM labelInsert acc = .ok (acc ++ pairs)
  | [], acc, _ => by simp [List.foldlM, pure, Except.pure]
  | p :: t, acc, h => by
    rw [List.foldlM]
    have hnone : acc.lookup p.1 = none := by
      rw [lookup_none_iff]
      intro hmem
      rw [List.map_append, List.nodup_append] at h
      exact (h.2.2 hmem) (by simp)
    rw [labelInsert, hnone]
    simp only [Option.isSome_none, Bool.false_eq_true, if_false]
    rw [except_bind_ok]
    have hre : (acc ++ [p]) ++ t = acc ++ p :: t := by simp
    rw [labelFold_nodup t (acc ++ [p]) (by rw [hre]; exact h), hre]

theorem labelFold_dup :
    ∀ (pairs acc : List (String × Nat)),
      ((acc.map Prod.fst).Nodup) →
      ¬ (((acc ++ pairs).map Prod.fst).Nodup) →
      ∃ lab : String,
        pairs.foldlM labelInsert acc = .error s!"Duplicate label: {lab}"
  | [], acc, hacc, hdup => absurd (by simpa using hacc) hdup
  | p :: t, acc, hacc, hdup => by
    rw [List.foldlM]
    cases hlk : acc.lookup p.1 with
    | some j =>
      refine ⟨p.1, ?_⟩
      rw [labelInsert, hlk]
      rfl
    | none =>
      have hnotin : p.1 ∉ acc.map Prod.fst := (lookup_none_iff p.1 acc).mp hlk
      have hnd2 : ((acc ++ [p]).map Prod.fst).Nodup := by
        rw [List.map_append, List.nodup_append]
        refine ⟨hacc, by simp, ?_⟩
        intro a ha hmem
        simp only [List.map_cons, List.map_nil, List.mem_singleton] at hmem
        rw [hmem] at ha
        exact hnotin ha
      obtain ⟨lab, hlab⟩ := labelFold_dup t (acc ++ [p]) hnd2 (by
        intro hn
        apply hdup
        have hre : (acc ++ [p]) ++ t = acc ++ p :: t := by simp
        rw [← hre]
        exact hn)
      refine ⟨lab, ?_⟩
      rw [labelInsert, hlk]
      simp only [Option.isSome_none, Bool.false_eq_true, if_false]
      rw [except_bind_ok]
      exact hlab

theorem labelPairs_mem_iff (lines : List CodeLine) (lab : String) (i : Nat) :
    (lab, i) ∈ labelPairs lines ↔
      ∃ line, lines.get? i = some line ∧ lab ∈ line.labels := by
  unfold labelPairs
  rw [List.mem_flatMap]
  constructor
  · rintro ⟨p, hp, hmem⟩
    obtain ⟨pi, pline⟩ := p
    obtain ⟨l, hl, heq⟩ := List.mem_map.mp hmem
    injection heq with h1 h2
    subst h1; subst h2
    exact ⟨pline, List.mk_mem_enum_iff_get?.mp hp, hl⟩
  · rintro ⟨line, hget, hlab⟩
    exact ⟨(i, line), List.mk_mem_enum_iff_get?.mpr hget,
      List.mem_map.mpr ⟨lab, hlab, rfl⟩⟩

theorem flatPairs_nodup :
    ∀ (el : List (Nat × CodeLine)),
      ((el.map Prod.fst).Nodup) →
      (∀ p ∈ el, p.2.labels.Nodup) →
      (el.flatMap fun p => p.2.labels.map fun l => (l, p.1)).Nodup
  | [], _, _ => by simp
  | p :: t, hnd, hlab => by
    rw [List.flatMap_cons, List.nodup_append]
    simp only [List.map_cons, List.nodup_cons] at hnd
    refine ⟨?_, flatPairs_nodup t hnd.2
      (fun q hq => hlab q (List.mem_cons_of_mem _ hq)), ?_⟩
    · exact (hlab p (List.mem_cons_self _ _)).map
        (fun a b hab => congrArg Prod.fst hab)
    · intro x hx1 hx2
      obtain ⟨l1, _, heq1⟩ := List.mem_map.mp hx1
      obtain ⟨q, hq, hxq⟩ := List.mem_flatMap.mp hx2
      obtain ⟨l2, _, heq2⟩ := List.mem_map.mp hxq
      apply hnd.1
      have hq1 : q.1 = p.1 := by
        rw [← heq1] at heq2
        exact congrArg Prod.snd heq2
      rw [← hq1]
      exact List.mem_map_of_mem Prod.fst hq

theorem labelPairs_nodup (lines : List CodeLine)
    (hline : ∀ line ∈ lines, line.labels.Nodup) :
    (labelPairs lines).Nodup := by
  unfold labelPairs
  refine flatPairs_nodup lines.enum ?_ ?_
  · rw [List.enum_map_fst]
    exact List.nodup_range _
  · intro p hp
    exact hline p.2 (by
      obtain ⟨pi, pline⟩ := p
      exact List.get?_mem (List.mk_mem_enum_iff_get?.mp hp))

/-- Claim C9: duplicate labels make the converter fail with a
"Duplicate label: …" diagnostic; otherwise every label maps to the
unique index of the code line whose label set contains it. -/
theorem claim_C9 (lines : List CodeLine)
    (hline : ∀ line ∈ lines, line.labels.Nodup) :
    (((labelPairs lines).map Prod.fst).Nodup →
      ∃ posmap, compute_label_positions lines = .ok posmap ∧
        ∀ lab i, posmap.lookup lab = some i ↔ (lab, i) ∈ labelPairs lines) ∧
    (¬ ((labelPairs lines).map Prod.fst).Nodup →
      ∃ lab : String, compute_label_positions lines =
        .error s!"Duplicate label: {lab}") ∧
    (¬ ((labelPairs lines).map Prod.fst).Nodup ↔
      ∃ lab i j, i ≠ j ∧ (lab, i) ∈ labelPairs lines ∧
        (lab, j) ∈ labelPairs lines) ∧
    (∀ lab i, (lab, i) ∈ labelPairs lines ↔
      ∃ line, lines.get? i = some line ∧ lab ∈ line.labels) := by
  refine ⟨?_, ?_, ?_, fun lab i => labelPairs_mem_iff lines lab i⟩
  · intro hnd
    refine ⟨labelPairs lines, ?_, ?_⟩
    · unfold compute_label_positions
      have h := labelFold_nodup (labelPairs lines) [] (by simpa using hnd)
      simpa using h
    · intro lab i
      exact lookup_some_iff_mem lab i (labelPairs lines) hnd
  · intro hnd
    obtain ⟨lab, hlab⟩ := labelFold_dup (labelPairs lines) []
      (by simp) (by simpa using hnd)
    exact ⟨lab, hlab⟩
  · constructor
    · intro hnd
      have hpn := labelPairs_nodup lines hline
      have h2 : ¬ ∀ x ∈ labelPairs lines, ∀ y ∈ labelPairs lines,
          Prod.fst x = Prod.fst y → x = y := by
        intro hinj
        exact hnd (hpn.map_on hinj)
      push_neg at h2
      obtain ⟨x, hx, y, hy, hfst, hxy⟩ := h2
      refine ⟨x.1, x.2, y.2, ?_, ?_, ?_⟩
      · intro hsnd
        apply hxy
        exact Prod.ext hfst hsnd
      · exact hx
      · rw [show (x.1, y.2) = (y.1, y.2) from by rw [hfst]]
        simpa using hy
    · rintro ⟨lab, i, j, hij, hi, hj⟩
      intro hnd
      have := List.inj_on_of_nodup_map hnd hi hj rfl
      injection this with _ h2
      exact hij h2

/-! ### Claim C2: the batch fold -/

theorem except_bind_ok_elim {A B : Type} {x : Except String A}
    {g : A → Except String B} {r : B} (h : (x >>= g) = .ok r) :
    ∃ a, x = .ok a ∧ g a = .ok r := by
  cases x with
  | error e => rw [except_bind_error] at h; exact Except.noConfusion h
  | ok a => rw [except_bind_ok] at h; exact ⟨a, rfl, h⟩

theorem bool_eq_false {b : Bool} (h : ¬(b = true)) : b = false := by
  cases b
  · rfl
  · exact absurd rfl h

theorem not_true_of_eq_false {b : Bool} (h : b = false) : ¬(b = true) := by
  intro h2
  rw [h2] at h
  exact Bool.noConfusion h

theorem charListLt_irrefl : ∀ l, charListLt l l = false
  | [] => rfl
  | a :: as => by
    rw [charListLt, if_neg (lt_irrefl a), if_neg (lt_irrefl a)]
    exact charListLt_irrefl as

theorem charListLt_trans : ∀ (l1 l2 l3 : List Char),
    charListLt l1 l2 = true → charListLt l2 l3 = true →
    charListLt l1 l3 = true
  | l1, [], l3, h1, _ => by
    rw [show charListLt l1 [] = false from by cases l1 <;> rfl] at h1
    exact Bool.noConfusion h1
  | l1, b :: bs, [], _, h2 => by
    rw [show charListLt (b :: bs) [] = false from rfl] at h2
    exact Bool.noConfusion h2
  | [], b :: bs, c :: cs, _, _ => rfl
  | a :: as, b :: bs, c :: cs, h1, h2 => by
    rw [charListLt] at h1 h2 ⊢
    by_cases hab : a < b
    · by_cases hbc : b < c
      · rw [if_pos (lt_trans hab hbc)]
      · rw [if_neg hbc] at h2
        by_cases hcb : c < b
        · rw [if_pos hcb] at h2
          exact Bool.noConfusion h2
        · have hbc2 : b = c := le_antisymm (not_lt.mp hcb) (not_lt.mp hbc)
          rw [if_pos (hbc2 ▸ hab)]
    · rw [if_neg hab] at h1
      by_cases hba : b < a
      · rw [if_pos hba] at h1
        exact Bool.noConfusion h1
      · rw [if_neg hba] at h1
        have hab2 : a = b := le_antisymm (not_lt.mp hba) (not_lt.mp hab)
        subst hab2
        by_cases hac : a < c
        · rw [if_pos hac]
        · rw [if_neg hac] at h2 ⊢
          by_cases hca : c < a
          · rw [if_pos hca] at h2
            exact Bool.noConfusion h2
          · rw [if_neg hca] at h2 ⊢
            exact charListLt_trans as bs cs h1 h2

theorem charListLt_asymm : ∀ (l1 l2 : List Char),
    charListLt l1 l2 = true → charListLt l2 l1 = false
  | l1, [], h => by
    rw [show charListLt l1 [] = false from by cases l1 <;> rfl] at h
    exact Bool.noConfusion h
  | [], b :: bs, _ => rfl
  | a :: as, b :: bs, h => by
    rw [charListLt] at h ⊢
    by_cases hab : a < b
    · rw [if_neg (asymm hab), if_pos hab]
    · rw [if_neg hab] at h
      by_cases hba : b < a
      · rw [if_pos hba] at h
        exact Bool.noConfusion h
      · rw [if_neg hba] at h
        rw [if_neg hba, if_neg hab]
        exact charListLt_asymm as bs h

theorem charListLt_conn : ∀ (l1 l2 : List Char),
    charListLt l1 l2 = false → charListLt l2 l1 = false → l1 = l2
  | [], [], _, _ => rfl
  | [], b :: bs, h1, _ => Bool.noConfusion h1
  | a :: as, [], _, h2 => Bool.noConfusion h2
  | a :: as, b :: bs, h1, h2 => by
    rw [charListLt] at h1 h2
    by_cases hab : a < b
    · rw [if_pos hab] at h1
      exact Bool.noConfusion h1
    · by_cases hba : b < a
      · rw [if_pos hba] at h2
        exact Bool.noConfusion h2
      · rw [if_neg hab, if_neg hba] at h1
        rw [if_neg hba, if_neg hab] at h2
        have hab2 : a = b := le_antisymm (not_lt.mp hba) (not_lt.mp hab)
        rw [hab2, charListLt_conn as bs h1 h2]

theorem strLt_irrefl (a : String) : strLt a a = false :=
  charListLt_irrefl a.data

theorem strLt_trans (a b c : String) (h1 : strLt a b = true)
    (h2 : strLt b c = true) : strLt a c = true :=
  charListLt_trans a.data b.data c.data h1 h2

theorem strLt_asymm (a b : String) (h : strLt a b = true) :
    strLt b a = false :=
  charListLt_asymm a.data b.data h

theorem strLt_conn (a b : String) (h1 : strLt a b = false)
    (h2 : strLt b a = false) : a = b := by
  have h3 := charListLt_conn a.data b.data h1 h2
  cases a
  cases b
  exact congrArg String.mk h3

theorem strLt_total (a b : String) (h1 : strLt a b = false) (h2 : a ≠ b) :
    strLt b a = true := by
  cases hb : strLt b a
  · exact absurd (strLt_conn a b h1 hb) h2
  · rfl

theorem strLt_ne (a b : String) (h : strLt a b = true) : a ≠ b := by
  intro he
  rw [he, strLt_irrefl] at h
  exact Bool.noConfusion h

theorem mem_btInsert {A : Type} (k : String) (v : A) :
    ∀ (l : List (String × A)) (p : String × A),
      p ∈ btInsert k v l → p = (k, v) ∨ p ∈ l
  | [], p, h => by
    rw [btInsert] at h
    exact Or.inl (List.mem_singleton.mp h)
  | (k2, v2) :: t, p, h => by
    rw [btInsert] at h
    by_cases h1 : strLt k k2 = true
    · rw [if_pos h1] at h
      rcases List.mem_cons.mp h with rfl | h2
      · exact Or.inl rfl
      · exact Or.inr h2
    · rw [if_neg h1] at h
      by_cases h2 : k = k2
      · rw [if_pos h2] at h
        rcases List.mem_cons.mp h with rfl | h3
        · exact Or.inl rfl
        · exact Or.inr (List.mem_cons_of_mem _ h3)
      · rw [if_neg h2] at h
        rcases List.mem_cons.mp h with rfl | h3
        · exact Or.inr (List.mem_cons_self _ _)
        · rcases mem_btInsert k v t p h3 with h4 | h4
          · exact Or.inl h4
          · exact Or.inr (List.mem_cons_of_mem _ h4)

theorem btInsert_keysSorted {A : Type} (k : String) (v : A) :
    ∀ (l : List (String × A)), keysSorted l → keysSorted (btInsert k v l)
  | [], _ => by
    rw [btInsert]
    exact List.pairwise_singleton _ _
  | (k2, v2) :: t, h => by
    rw [keysSorted, List.pairwise_cons] at h
    obtain ⟨hall, ht⟩ := h
    rw [btInsert]
    by_cases h1 : strLt k k2 = true
    · rw [if_pos h1, keysSorted, List.pairwise_cons]
      refine ⟨?_, ?_⟩
      · intro p hp
        rcases List.mem_cons.mp hp with rfl | hp2
        · exact h1
        · exact strLt_trans _ _ _ h1 (hall p hp2)
      · rw [List.pairwise_cons]
        exact ⟨hall, ht⟩
    · rw [if_neg h1]
      by_cases h2 : k = k2
      · rw [if_pos h2, keysSorted, List.pairwise_cons]
        refine ⟨?_, ht⟩
        intro p hp
        rw [show (k, v).1 = k2 from h2]
        exact hall p hp
      · rw [if_neg h2, keysSorted, List.pairwise_cons]
        refine ⟨?_, btInsert_keysSorted k v t ht⟩
        intro p hp
        rcases mem_btInsert k v t p hp with rfl | hp2
        · exact strLt_total k k2 (bool_eq_false h1) h2
        · exact hall p hp2

theorem btInsert_append {A : Type} (k : String) (v : A) :
    ∀ (l : List (String × A)), (∀ p ∈ l, strLt p.1 k = true) →
      btInsert k v l = l ++ [(k, v)]
  | [], _ => rfl
  | (k2, v2) :: t, h => by
    rw [btInsert]
    have hk2 : strLt k2 k = true := h (k2, v2) (List.mem_cons_self _ _)
    rw [if_neg (not_true_of_eq_false (strLt_asymm k2 k hk2)),
      if_neg (Ne.symm (strLt_ne k2 k hk2)),
      btInsert_append k v t (fun p hp => h p (List.mem_cons_of_mem _ hp))]
    rfl

theorem btExtend_sorted_append {A : Type} :
    ∀ (l acc : List (String × A)), keysSorted (acc ++ l) →
      btExtend acc l = acc ++ l
  | [], acc, _ => by simp [btExtend]
  | p :: t, acc, h => by
    have hstep : btExtend acc (p :: t) = btExtend (btInsert p.1 p.2 acc) t := rfl
    have hall : ∀ q ∈ acc, strLt q.1 p.1 = true := by
      rw [keysSorted, List.pairwise_append] at h
      intro q hq
      exact h.2.2 q hq p (List.mem_cons_self _ _)
    have hin : btInsert p.1 p.2 acc = acc ++ [p] := by
      rw [btInsert_append p.1 p.2 acc hall]
    have hre : (acc ++ [p]) ++ t = acc ++ p :: t := by simp
    rw [hstep, hin, btExtend_sorted_append t (acc ++ [p]) (by rw [hre]; exact h),
      hre]

theorem btExtend_nil {A : Type} (l : List (String × A)) (h : keysSorted l) :
    btExtend [] l = l := by
  have h2 := btExtend_sorted_append l [] (by simpa using h)
  simpa using h2

theorem handle_non_functional_assignment_sorted (st : ASMPILConverter)
    (lhs : List (String × String)) (value : Expr) (cl : CodeLine)
    (h : st.handle_non_functional_assignment lhs value = .ok cl) :
    keysSorted cl.write_regs ∧ keysSorted cl.value := by
  obtain ⟨u, hu, h2⟩ := except_bind_ok_elim h
  cases lhs with
  | nil => exact Except.noConfusion h2
  | cons p tail =>
    obtain ⟨p2, hp2, h3⟩ := except_bind_ok_elim h2
    obtain ⟨wr2, ar2⟩ := p2
    obtain ⟨v, hv, h4⟩ := except_bind_ok_elim h3
    rw [← Except.ok.inj h4]
    exact ⟨List.pairwise_singleton _ _, List.pairwise_singleton _ _⟩

theorem handle_instruction_sorted (st : ASMPILConverter) (name : String)
    (args : List Expr) (cl : CodeLine)
    (h : st.handle_instruction name args = .ok cl) :
    keysSorted cl.write_regs ∧ keysSorted cl.value := by
  obtain ⟨instr, hi, h2⟩ := except_bind_ok_elim h
  obtain ⟨u, hu, h3⟩ := except_bind_ok_elim h2
  obtain ⟨vp, hvp, h4⟩ := except_bind_ok_elim h3
  obtain ⟨value, lit⟩ := vp
  obtain ⟨wr, hwr, h5⟩ := except_bind_ok_elim h4
  obtain ⟨u2, hu2, h6⟩ := except_bind_ok_elim h5
  rw [← Except.ok.inj h6]
  constructor
  · refine foldlM_except_invariant
      (fun (acc : List (String × List String)) => keysSorted acc) _ _ _ _
      hwr List.Pairwise.nil ?_
    intro acc pair res2 hP hs
    obtain ⟨out, e⟩ := pair
    cases e
    case Reference r =>
      rw [← Except.ok.inj hs]
      exact btInsert_keysSorted _ _ _ hP
    all_goals exact Except.noConfusion hs
  · refine foldlM_except_invariant
      (fun (acc : List (String × List (F × AffineExpressionComponent)) ×
        List InstructionLiteralArg) => keysSorted acc.1) _ _ _ _
      hvp List.Pairwise.nil ?_
    intro acc pair res2 hP hs
    obtain ⟨value2, lit2⟩ := acc
    obtain ⟨inp, e⟩ := pair
    cases inp with
    | Register reg =>
      obtain ⟨u3, hu3, hs2⟩ := except_bind_ok_elim hs
      obtain ⟨v, hv, hs3⟩ := except_bind_ok_elim hs2
      rw [← Except.ok.inj hs3]
      exact btInsert_keysSorted reg v value2 hP
    | Literal s k =>
      cases k with
      | Label =>
        cases e
        case Reference r =>
          rw [← Except.ok.inj hs]
          exact hP
        all_goals exact Except.noConfusion hs
      | UnsignedConstant =>
        cases e
        case Number n =>
          have hs2 : (if is_in_lower_half n then
              (Except.ok (value2, lit2 ++ [InstructionLiteralArg.Number n]) :
                Except String
                  (List (String × List (F × AffineExpressionComponent)) ×
                    List InstructionLiteralArg))
            else Except.error
              s!"Number passed to unsigned parameter is negative or too large: {n}") =
              Except.ok res2 := hs
          by_cases hn : is_in_lower_half n
          · rw [if_pos hn] at hs2
            rw [← Except.ok.inj hs2]
            exact hP
          · rw [if_neg hn] at hs2
            exact Except.noConfusion hs2
        all_goals exact Except.noConfusion hs
      | SignedConstant =>
        cases e
        case Number n =>
          rw [← Except.ok.inj hs]
          exact hP
        case UnaryOperation op expr =>
          cases op
          case Minus =>
            cases expr
            case Number n =>
              rw [← Except.ok.inj hs]
              exact hP
            all_goals exact Except.noConfusion hs
          all_goals exact Except.noConfusion hs
        all_goals exact Except.noConfusion hs

theorem handle_functional_instruction_sorted (st : ASMPILConverter)
    (lhs : List (String × String)) (f : Expr) (args : List Expr)
    (cl : CodeLine) (h : st.handle_functional_instruction lhs f args = .ok cl) :
    keysSorted cl.write_regs ∧ keysSorted cl.value := by
  cases f
  case Reference r =>
    obtain ⟨name2, hn, h3⟩ := except_bind_ok_elim h
    obtain ⟨instr, hi, h4⟩ := except_bind_ok_elim h3
    obtain ⟨u2, hu2, h5⟩ := except_bind_ok_elim h4
    exact handle_instruction_sorted _ _ _ _ h5
  all_goals exact Except.noConfusion h

theorem handle_statement_sorted (st : ASMPILConverter) :
    ∀ (s : FunctionStatement) (cl : CodeLine),
      st.handle_statement s = .ok cl →
      keysSorted cl.write_regs ∧ keysSorted cl.value := by
  intro s cl h
  cases s with
  | Assignment lhs rhs =>
    obtain ⟨lhs2, hl, h2⟩ := except_bind_ok_elim h
    cases rhs
    case FunctionCall f arguments =>
      exact handle_functional_instruction_sorted _ _ _ _ _ h2
    all_goals exact handle_non_functional_assignment_sorted _ _ _ _ h2
  | Instruction name inputs => exact handle_instruction_sorted _ _ _ _ h
  | Label name =>
    rw [← Except.ok.inj h]
    exact ⟨List.Pairwise.nil, List.Pairwise.nil⟩
  | DebugDirective d =>
    rw [← Except.ok.inj h]
    exact ⟨List.Pairwise.nil, List.Pairwise.nil⟩
  | Return values => exact handle_instruction_sorted _ _ _ _ h

theorem claim_C9_witness :
    ("a", 0) ∈ labelPairs distinctLabelLines ∧
    compute_label_positions distinctLabelLines = .ok [("a", 0), ("b", 1)] := by
  obtain ⟨posmap, hok, hiff⟩ := (claim_C9 distinctLabelLines
    (by
      intro line hl
      rw [distinctLabelLines] at hl
      rcases List.mem_cons.mp hl with rfl | hl2
      · exact List.nodup_singleton _
      · rw [List.mem_singleton.mp hl2]
        exact List.nodup_singleton _)).1
    (by
      rw [show (labelPairs distinctLabelLines).map Prod.fst = ["a", "b"]
        from rfl]
      simp)
  have hcomp : compute_label_positions distinctLabelLines =
      .ok [("a", 0), ("b", 1)] := rfl
  have hpm : posmap = [("a", 0), ("b", 1)] := by
    rw [hok] at hcomp
    exact Except.ok.inj hcomp
  refine ⟨(hiff "a" 0).mp ?_, hcomp⟩
  rw [hpm]
  rfl

theorem codeLineUnionSpec_nil (c : CodeLine) : codeLineUnionSpec c [] = c := by
  cases c
  simp [codeLineUnionSpec, lastCodeLine]

theorem dropLast_cons_cons {A : Type} (a b : A) (l : List A) :
    (a :: b :: l).dropLast = a :: (b :: l).dropLast := rfl

theorem codeLineUnionSpec_cons (acc e : CodeLine) (cls : List CodeLine) :
    codeLineUnionSpec
      { write_regs := e.write_regs, value := e.value,
        instructions := e.instructions,
        labels := btSetExtend acc.labels e.labels,
        debug_directives := acc.debug_directives ++ e.debug_directives } cls =
    codeLineUnionSpec acc (e :: cls) := by
  cases cls with
  | nil =>
    rw [codeLineUnionSpec_nil]
    simp [codeLineUnionSpec, lastCodeLine]
  | cons c t =>
    unfold codeLineUnionSpec lastCodeLine
    simp only [CodeLine.mk.injEq]
    refine ⟨?_, ?_, ?_, ?_, ?_⟩
    · simp only [List.getLastD_cons]
    · simp only [List.getLastD_cons]
    · rfl
    · simp only [List.getLastD_cons]
    · simp [List.append_assoc]

theorem codeLineUnionStep_empty (acc e : CodeLine)
    (h1 : acc.write_regs = []) (h2 : acc.value = []) (h3 : acc.instructions = [])
    (hs1 : keysSorted e.write_regs) (hs2 : keysSorted e.value) :
    codeLineUnionStep acc e = .ok
      { write_regs := e.write_regs, value := e.value,
        instructions := e.instructions,
        labels := btSetExtend acc.labels e.labels,
        debug_directives := acc.debug_directives ++ e.debug_directives } := by
  have hc : codeLineUnionStep acc e =
      (rtAssert acc.write_regs.isEmpty
          "assertion failed: acc.write_regs.is_empty()" >>= fun _ =>
        rtAssert acc.value.isEmpty
          "assertion failed: acc.value.is_empty()" >>= fun _ =>
        rtAssert acc.instructions.isEmpty
          "assertion failed: acc.instructions.is_empty()" >>= fun _ =>
        Except.ok { write_regs := btExtend acc.write_regs e.write_regs,
                    value := btExtend acc.value e.value,
                    instructions := acc.instructions ++ e.instructions,
                    labels := btSetExtend acc.labels e.labels,
                    debug_directives :=
                      acc.debug_directives ++ e.debug_directives }) := rfl
  rw [hc, h1, h2, h3, btExtend_nil e.write_regs hs1, btExtend_nil e.value hs2]
  rfl

theorem handleBatchFold_spec (st : ASMPILConverter) :
    ∀ (rest : List FunctionStatement) (acc : CodeLine) (cls : List CodeLine),
      rest.mapM st.handle_statement = .ok cls →
      (∀ cl ∈ (acc :: cls).dropLast,
        cl.write_regs = [] ∧ cl.value = [] ∧ cl.instructions = []) →
      st.handleBatchFold acc rest = .ok (codeLineUnionSpec acc cls) := by
  intro rest
  induction rest with
  | nil =>
    intro acc cls h hempty
    have hcl : cls = [] := (Except.ok.inj h).symm
    subst hcl
    rw [codeLineUnionSpec_nil]
    rfl
  | cons s rest ih =>
    intro acc cls h hempty
    rw [List.mapM_cons] at h
    obtain ⟨e, he, h2⟩ := except_bind_ok_elim h
    obtain ⟨cls2, hcls2, h3⟩ := except_bind_ok_elim h2
    have hcl : cls = e :: cls2 := (Except.ok.inj h3).symm
    subst hcl
    obtain ⟨ha1, ha2, ha3⟩ := hempty acc (by
      rw [dropLast_cons_cons]
      exact List.mem_cons_self _ _)
    obtain ⟨hs1, hs2⟩ := handle_statement_sorted st s e he
    set acc2 : CodeLine :=
      { write_regs := e.write_regs, value := e.value,
        instructions := e.instructions,
        labels := btSetExtend acc.labels e.labels,
        debug_directives := acc.debug_directives ++ e.debug_directives }
      with hacc2
    have hemp2 : ∀ cl ∈ (acc2 :: cls2).dropLast,
        cl.write_regs = [] ∧ cl.value = [] ∧ cl.instructions = [] := by
      intro cl hcl
      cases cls2 with
      | nil =>
        rw [show ([acc2] : List CodeLine).dropLast = [] from rfl] at hcl
        exact absurd hcl (List.not_mem_nil cl)
      | cons c2 t2 =>
        rw [dropLast_cons_cons] at hcl
        rcases List.mem_cons.mp hcl with rfl | hcl2
        · obtain ⟨he1, he2, he3⟩ := hempty e (by
            rw [dropLast_cons_cons, dropLast_cons_cons]
            exact List.mem_cons_of_mem _ (List.mem_cons_self _ _))
          refine ⟨?_, ?_, ?_⟩
          · rw [hacc2]; exact he1
          · rw [hacc2]; exact he2
          · rw [hacc2]; exact he3
        · exact hempty cl (by
            rw [dropLast_cons_cons, dropLast_cons_cons]
            exact List.mem_cons_of_mem _ (List.mem_cons_of_mem _ hcl2))
    have hstep : st.handleBatchFold acc (s :: rest) =
        (st.handle_statement s >>= fun e2 =>
          codeLineUnionStep acc e2 >>= fun a2 =>
          st.handleBatchFold a2 rest) := rfl
    rw [hstep, he, except_bind_ok,
      codeLineUnionStep_empty acc e ha1 ha2 ha3 hs1 hs2, except_bind_ok,
      ← hacc2, ih acc2 cls2 hcls2 hemp2, hacc2, codeLineUnionSpec_cons]

/-- Claim C2 (amended): folding a batch succeeds exactly in the narrower
situation where every non-final statement of the batch contributes empty
write-regs, value and instructions components; the resulting single code
line appended to `code_lines` takes those three exclusive components from
the final statement and unions labels and debug directives across the
batch. Pairwise disjointness of the three components alone does not
suffice, because `handle_batch` asserts the accumulator empty before each
merge, making the fold order-sensitive. -/
theorem claim_C2 (st : ASMPILConverter) (b : Batch) (cls : List CodeLine)
    (h : b.statements.mapM st.handle_statement = .ok cls)
    (hne : cls ≠ [])
    (hempty : ∀ cl ∈ cls.dropLast,
      cl.write_regs = [] ∧ cl.value = [] ∧ cl.instructions = []) :
    ∃ first rest, cls = first :: rest ∧
      st.handle_batch b = .ok { st with code_lines :=
        st.code_lines ++ [codeLineUnionSpec first rest] } := by
  cases hb : b.statements with
  | nil =>
    rw [hb] at h
    exact absurd (Except.ok.inj h).symm hne
  | cons s rest =>
    rw [hb, List.mapM_cons] at h
    obtain ⟨first, hfirst, h2⟩ := except_bind_ok_elim h
    obtain ⟨cls2, hcls2, h3⟩ := except_bind_ok_elim h2
    have hcl : cls = first :: cls2 := (Except.ok.inj h3).symm
    subst hcl
    refine ⟨first, cls2, rfl, ?_⟩
    have hfold := handleBatchFold_spec st rest first cls2 hcls2 hempty
    have h1 : st.handle_batch b =
        (match b.statements with
          | [] => Except.error "unexpected empty batch"
          | s :: rest =>
            st.handle_statement s >>= fun c =>
            st.handleBatchFold c rest >>= fun code_line =>
            Except.ok { st with
              code_lines := st.code_lines ++ [code_line] }) := rfl
    rw [h1, hb]
    have hgoal : (st.handle_statement s >>= fun c =>
        st.handleBatchFold c rest >>= fun code_line =>
        Except.ok { st with code_lines := st.code_lines ++ [code_line] }) =
        Except.ok { st with
          code_lines := st.code_lines ++ [codeLineUnionSpec first cls2] } := by
      rw [hfirst, except_bind_ok, hfold, except_bind_ok]
    exact hgoal

theorem claim_C2_witness :
    ASMPILConverter.handle_batch {} labelAsgnBatch =
      .ok { ({} : ASMPILConverter) with
            code_lines := [codeLineUnionSpec labelCL [asgnCL]] } := by
  obtain ⟨first, rest, hcons, hbatch⟩ := claim_C2 {} labelAsgnBatch
    [labelCL, asgnCL] (by rfl) (by simp)
    (by
      intro cl hcl
      rw [show ([labelCL, asgnCL].dropLast) = [labelCL] from rfl] at hcl
      rw [List.mem_singleton.mp hcl]
      exact ⟨rfl, rfl, rfl⟩)
  obtain ⟨h1, h2⟩ := List.cons.inj hcons
  rw [← h1, ← h2] at hbatch
  exact hbatch

/-- Counterexample for claim C2 as stated: the label statement contributes
none of the three exclusive components, so the two statements are
component-disjoint in every order, yet the assignment-then-label batch
fails on the accumulator-emptiness assertion while the reversed batch
succeeds. -/
theorem claim_C2_counterexample :
    ASMPILConverter.handle_statement {} (.Label "l") = .ok labelCL ∧
    labelCL.write_regs = [] ∧ labelCL.value = [] ∧ labelCL.instructions = [] ∧
    ASMPILConverter.handle_statement {}
      (.Assignment [("A", some "X")] (.Number 5)) = .ok asgnCL ∧
    ASMPILConverter.handle_batch {} asgnLabelBatch =
      .error "assertion failed: acc.write_regs.is_empty()" ∧
    (ASMPILConverter.handle_batch {} labelAsgnBatch).isOk = true :=
  ⟨rfl, rfl, rfl, rfl, rfl, rfl, rfl⟩

/-! ### Claim C7: exactly one bare plookup -/

theorem noBare_append {l1 l2 : List PilStatement}
    (h1 : ∀ s ∈ l1, isBarePlookup s = false)
    (h2 : ∀ s ∈ l2, isBarePlookup s = false) :
    ∀ s ∈ l1 ++ l2, isBarePlookup s = false := by
  intro s hs
  rcases List.mem_append.mp hs with h | h
  · exact h1 s h
  · exact h2 s h

theorem noBare_singleton {s0 : PilStatement} (h : isBarePlookup s0 = false) :
    ∀ s ∈ [s0], isBarePlookup s = false := by
  intro s hs
  rw [List.mem_singleton.mp hs]
  exact h

theorem cwfp_noBare (st : ASMPILConverter) (k : Nat) (n : String)
    (h : pilNoBare st) : pilNoBare (st.create_witness_fixed_pair k n) := by
  intro s hs
  have hs2 : s ∈ st.pil ++ [witness_column k n none] := hs
  exact noBare_append h (noBare_singleton (by rfl)) s hs2

theorem setRegisters_elim {st : ASMPILConverter}
    {o : Option (List (String × Register))} {st2 : ASMPILConverter}
    (h : setRegisters st o = .ok st2) :
    ∃ regs, o = some regs ∧ st2 = { st with registers := regs } := by
  cases o with
  | none => exact Except.noConfusion h
  | some regs => exact ⟨regs, rfl, (Except.ok.inj h).symm⟩

theorem polyDefName_noBare {s : PilStatement} {n : String}
    (h : polyDefName s = some n) : isBarePlookup s = false := by
  cases s <;> first | rfl | exact Option.noConfusion h

theorem linearize_rec_noBare (pfx : String) (e : Expr) (c c2 : Nat)
    (e2 : Expr) (defs : List PilStatement)
    (h : linearize_rec pfx c e = .ok (c2, e2, defs)) :
    ∀ s ∈ defs, isBarePlookup s = false := by
  intro s hs
  have hnames := (linearize_rec_names pfx e c c2 e2 defs h).2
  have hmem : polyDefName s ∈ defs.map polyDefName :=
    List.mem_map_of_mem polyDefName hs
  rw [hnames] at hmem
  obtain ⟨k, _, hk⟩ := List.mem_map.mp hmem
  exact polyDefName_noBare hk.symm

theorem linearize_noBare (st : ASMPILConverter) (pfx : String) (e : Expr)
    (st2 : ASMPILConverter) (e2 : Expr)
    (h : st.linearize pfx e = .ok (st2, e2)) (hnb : pilNoBare st) :
    pilNoBare st2 := by
  obtain ⟨t, ht, h2⟩ := except_bind_ok_elim h
  obtain ⟨c, e3, defs⟩ := t
  have h3 := Except.ok.inj h2
  have hst2 : ({ st with pil := st.pil ++ defs } : ASMPILConverter) = st2 :=
    congrArg Prod.fst h3
  rw [← hst2]
  intro s hs
  exact noBare_append hnb (linearize_rec_noBare pfx e 0 c e3 defs ht) s hs

theorem instrBodyStep_noBare (flag : String) (st : ASMPILConverter)
    (statement : PilStatement) (st2 : ASMPILConverter)
    (h : instrBodyStep flag st statement = .ok st2) (hnb : pilNoBare st) :
    pilNoBare st2 := by
  cases statement with
  | PolynomialIdentity k expr =>
    simp only [instrBodyStep] at h
    rcases hex : extract_update expr with ⟨ovar, e2⟩
    rw [hex] at h
    cases ovar with
    | some var =>
      obtain ⟨p, hp, h2⟩ := except_bind_ok_elim h
      obtain ⟨st3, e3⟩ := p
      obtain ⟨regs, _, hst2⟩ := setRegisters_elim h2
      rw [hst2]
      intro s hs
      exact linearize_noBare st _ e2 st3 e3 hp hnb s hs
    | none =>
      rw [← Except.ok.inj h]
      intro s hs
      have hs2 : s ∈ st.pil ++
          [PilStatement.PolynomialIdentity 0 (direct_reference flag * e2)] := hs
      exact noBare_append hnb (noBare_singleton (by rfl)) s hs2
  | PermutationIdentity ps left right =>
    obtain ⟨u, hu, h2⟩ := except_bind_ok_elim h
    rw [← Except.ok.inj h2]
    intro s hs
    have hs2 : s ∈ st.pil ++
        [PilStatement.PermutationIdentity ps
          { left with selector := some (direct_reference flag) } right] := hs
    exact noBare_append hnb (noBare_singleton (by rfl)) s hs2
  | PlookupIdentity ps left right =>
    obtain ⟨u, hu, h2⟩ := except_bind_ok_elim h
    rw [← Except.ok.inj h2]
    intro s hs
    have hs2 : s ∈ st.pil ++
        [PilStatement.PlookupIdentity ps
          { left with selector := some (direct_reference flag) } right] := hs
    exact noBare_append hnb (noBare_singleton (by rfl)) s hs2
  | PolynomialCommitDeclaration a b d => exact Except.noConfusion h
  | PolynomialConstantDefinition a b d => exact Except.noConfusion h
  | PolynomialDefinition a b d => exact Except.noConfusion h

theorem handle_register_declaration_noBare (st : ASMPILConverter)
    (r : RegisterDeclarationStatement) (st2 : ASMPILConverter)
    (h : st.handle_register_declaration r = .ok st2) (hnb : pilNoBare st) :
    pilNoBare st2 := by
  obtain ⟨rs, rn, rty⟩ := r
  cases rty with
  | Pc =>
    obtain ⟨u, hu, h2⟩ := except_bind_ok_elim h
    obtain ⟨t, ht2, h3⟩ := except_bind_ok_elim h2
    obtain ⟨st3, cu, du⟩ := t
    have hst3 : ({ st with
        pc_name := some rn
        line_lookup := st.line_lookup ++ [(rn, "p_line")] } : ASMPILConverter)
        = st3 :=
      congrArg Prod.fst (Except.ok.inj ht2)
    rw [← Except.ok.inj h3]
    intro s hs
    have hs2 : s ∈ st3.pil ++ [witness_column rs rn none] := hs
    rcases List.mem_append.mp hs2 with h3 | h3
    · rw [← hst3] at h3
      exact hnb s h3
    · rw [List.mem_singleton.mp h3]
      rfl
  | Assignment =>
    obtain ⟨t, ht, h2⟩ := except_bind_ok_elim h
    obtain ⟨st3, cu, du⟩ := t
    have hst3 : st = st3 := congrArg Prod.fst (Except.ok.inj ht)
    rw [← Except.ok.inj h2]
    intro s hs
    have hs2 : s ∈ st3.pil ++ [witness_column rs rn none] := hs
    rcases List.mem_append.mp hs2 with h3 | h3
    · rw [← hst3] at h3
      exact hnb s h3
    · rw [List.mem_singleton.mp h3]
      rfl
  | ReadOnly =>
    obtain ⟨t, ht, h2⟩ := except_bind_ok_elim h
    obtain ⟨st3, cu, du⟩ := t
    have hst3 : st = st3 := congrArg Prod.fst (Except.ok.inj ht)
    rw [← Except.ok.inj h2]
    intro s hs
    have hs2 : s ∈ st3.pil ++ [witness_column rs rn none] := hs
    rcases List.mem_append.mp hs2 with h3 | h3
    · rw [← hst3] at h3
      exact hnb s h3
    · rw [List.mem_singleton.mp h3]
      rfl
  | Write =>
    obtain ⟨t, ht, h2⟩ := except_bind_ok_elim h
    obtain ⟨st3, cu, du⟩ := t
    have hfold : pilNoBare st3 := by
      have h1 : pilNoBare (st3, cu, du).1 := by
        rw [← Except.ok.inj ht]
        exact foldl_invariant
          (fun (acc : ASMPILConverter × List (Expr × Expr)) => pilNoBare acc.1)
          _ _ _ hnb
          (fun acc x hP => cwfp_noBare acc.1 rs _ hP)
      exact h1
    rw [← Except.ok.inj h2]
    intro s hs
    have hs2 : s ∈ st3.pil ++ [witness_column rs rn none] := hs
    rcases List.mem_append.mp hs2 with h3 | h3
    · exact hfold s h3
    · rw [List.mem_singleton.mp h3]
      rfl

theorem create_constraints_noBare (st : ASMPILConverter) (reg : String)
    (hnb : pilNoBare st) :
    pilNoBare (st.create_constraints_for_assignment_reg reg) := by
  unfold ASMPILConverter.create_constraints_for_assignment_reg
  simp only []
  intro s hs
  rcases List.mem_append.mp hs with h3 | h3
  · exact foldl_invariant
      (fun (acc : ASMPILConverter × List Expr) => pilNoBare acc.1)
      _ _ _
      (cwfp_noBare _ 0 _ (cwfp_noBare st 0 _ hnb))
      (fun acc x hP => cwfp_noBare acc.1 0 _ hP) s h3
  · rw [List.mem_singleton.mp h3]
    rfl

theorem registerUpdateStatements_noBare (name : String) (reg : Register) :
    ∀ s ∈ registerUpdateStatements name reg, isBarePlookup s = false := by
  intro s hs
  unfold registerUpdateStatements at hs
  split at hs
  · exact absurd hs (List.not_mem_nil s)
  · split at hs
    · rcases List.mem_cons.mp hs with rfl | hs2
      · rfl
      · rw [List.mem_singleton.mp hs2]
        rfl
    · rw [List.mem_singleton.mp hs]
      rfl
    · rw [List.mem_singleton.mp hs]
      rfl

theorem registerUpdatePil_noBare (registers : List (String × Register)) :
    ∀ s ∈ registerUpdatePil registers, isBarePlookup s = false := by
  intro s hs
  unfold registerUpdatePil at hs
  obtain ⟨p, _, hp⟩ := List.mem_flatMap.mp hs
  exact registerUpdateStatements_noBare p.1 p.2 s hp

theorem handle_instruction_def_noBare (st : ASMPILConverter)
    (sd : InstructionDefinitionStatement) (st2 : ASMPILConverter)
    (res : Option LinkDefinitionStatement)
    (h : st.handle_instruction_def sd = .ok (st2, res)) (hnb : pilNoBare st) :
    pilNoBare st2 := by
  obtain ⟨ss, sn, sinstr⟩ := sd
  obtain ⟨sparams, sbody⟩ := sinstr
  obtain ⟨sinputs, soutputs⟩ := sparams
  obtain ⟨inputs, hin, h2⟩ := except_bind_ok_elim h
  cases soutputs <;>
  · obtain ⟨outs, houts, h3⟩ := except_bind_ok_elim h2
    cases sbody with
    | Local body0 =>
      obtain ⟨stG, hG, h4⟩ := except_bind_ok_elim h3
      obtain ⟨t, ht, h5⟩ := except_bind_ok_elim h4
      have hp := Except.ok.inj h5
      injection hp with hp1 hp2
      have htt := Except.ok.inj ht
      subst htt
      rw [← hp1]
      intro s hs
      refine foldlM_except_invariant pilNoBare _ _ _ _ hG ?_
        (fun acc x res2 hP hs2 => instrBodyStep_noBare _ acc x res2 hs2 hP)
        s hs
      exact foldl_invariant
        (fun (acc : ASMPILConverter × List (String × String)) =>
          pilNoBare acc.1)
        _ _ _ (cwfp_noBare st ss _ hnb)
        (fun acc x hP => cwfp_noBare acc.1 ss _ hP)
    | CallableRef tgt =>
      obtain ⟨t, ht, h4⟩ := except_bind_ok_elim h3
      have hp := Except.ok.inj h4
      injection hp with hp1 hp2
      have htt := Except.ok.inj ht
      subst htt
      rw [← hp1]
      intro s hs
      exact cwfp_noBare st ss _ hnb s hs

theorem translate_code_lines_noBare (st : ASMPILConverter)
    (st2 : ASMPILConverter) (h : st.translate_code_lines = .ok st2)
    (hnb : pilNoBare st) : pilNoBare st2 := by
  obtain ⟨lp, hlp, h2⟩ := except_bind_ok_elim h
  obtain ⟨t, ht, h3⟩ := except_bind_ok_elim h2
  obtain ⟨rom_constants, arms⟩ := t
  obtain ⟨pcn, hpcn, h4⟩ := except_bind_ok_elim h3
  obtain ⟨fvp, hfvp, h5⟩ := except_bind_ok_elim h4
  obtain ⟨stF, hstF, h6⟩ := except_bind_ok_elim h5
  rw [← Except.ok.inj h6]
  refine foldlM_except_invariant pilNoBare _ _ _ _ hstF ?_ ?_
  · intro s hs
    have hs2 : s ∈ (st.pil ++
        [PilStatement.PolynomialConstantDefinition 0 "p_line" (.Array
          ((padWithLast ((List.range st.code_lines.length).map
            fun i => Expr.Number (i : Int))).getD
            (.RepeatedValue [Expr.Number 0])))]) ++ fvp := hs
    have hfv : ∀ r ∈ fvp, isBarePlookup r = false :=
      mapM_except_forall (fun r => isBarePlookup r = false) _
        (fun x r hx => by
          obtain ⟨a, ha, hh⟩ := except_bind_ok_elim hx
          rw [← Except.ok.inj hh]
          rfl)
        _ fvp hfvp
    exact noBare_append (noBare_append hnb (noBare_singleton (by rfl))) hfv s hs2
  · intro acc x res2 hP hs
    obtain ⟨arr, harr, h7⟩ := except_bind_ok_elim hs
    rw [← Except.ok.inj h7]
    intro s hs2
    have hs3 : s ∈ acc.pil ++
        [PilStatement.PolynomialConstantDefinition 0 x.1 (.Array arr)] := hs2
    exact noBare_append hP (noBare_singleton (by rfl)) s hs3

theorem handle_batch_noBare (st : ASMPILConverter) (b : Batch)
    (st2 : ASMPILConverter) (h : st.handle_batch b = .ok st2)
    (hnb : pilNoBare st) : pilNoBare st2 := by
  obtain ⟨stmts, reason⟩ := b
  cases stmts with
  | nil => exact Except.noConfusion h
  | cons s0 rest =>
    obtain ⟨c, hc, h2⟩ := except_bind_ok_elim h
    obtain ⟨cl, hcl, h3⟩ := except_bind_ok_elim h2
    rw [← Except.ok.inj h3]
    intro s hs
    exact hnb s hs

theorem convertPreRom_noBare (st : ASMPILConverter) (input : Machine)
    (st2 : ASMPILConverter) (m2 : Machine)
    (h : st.convertPreRom input = .ok (st2, m2)) (hnb : pilNoBare st) :
    pilNoBare st2 := by
  obtain ⟨stA, hA, h2⟩ := except_bind_ok_elim h
  have hnbA : pilNoBare stA :=
    foldlM_except_invariant pilNoBare _ _ _ _ hA hnb
      (fun acc x res2 hP hs => handle_register_declaration_noBare acc x res2 hs hP)
  obtain ⟨t, hT, h3⟩ := except_bind_ok_elim h2
  obtain ⟨stB, links⟩ := t
  have hnbB : pilNoBare stB := by
    have hPt : pilNoBare (stB, links).1 := foldlM_except_invariant
      (fun (acc : ASMPILConverter × List LinkDefinitionStatement) =>
        pilNoBare acc.1)
      _ _ _ _ hT hnbA
      (fun acc x res2 hP hs => by
        obtain ⟨p, hp, h4⟩ := except_bind_ok_elim hs
        obtain ⟨stI, lnk⟩ := p
        rw [← Except.ok.inj h4]
        exact handle_instruction_def_noBare acc.1 x stI lnk hp hP)
    exact hPt
  obtain ⟨pcn, hpcn, h4⟩ := except_bind_ok_elim h3
  obtain ⟨q, hq, h5⟩ := except_bind_ok_elim h4
  obtain ⟨stC, retLink⟩ := q
  have hnbC : pilNoBare stC :=
    handle_instruction_def_noBare stB _ stC retLink hq hnbB
  obtain ⟨u, hu, h6⟩ := except_bind_ok_elim h5
  have hp := Except.ok.inj h6
  injection hp with hp1 hp2
  rw [← hp1]
  intro s hs
  have hD : pilNoBare (stC.assignment_register_names.foldl
      ASMPILConverter.create_constraints_for_assignment_reg stC) :=
    foldl_invariant pilNoBare _ _ _ hnbC
      (fun acc x hP => create_constraints_noBare acc x hP)
  rcases List.mem_append.mp hs with h7 | h7
  · rcases List.mem_append.mp h7 with h8 | h8
    · exact hD s h8
    · rw [List.mem_singleton.mp h8]
      rfl
  · exact registerUpdatePil_noBare _ s h7

theorem convertCore_noBare (st : ASMPILConverter) (input : Machine)
    (rom : Option Rom) (st2 : ASMPILConverter) (m3 : Machine)
    (h : st.convertCore input rom = .ok (st2, m3)) (hnb : pilNoBare st) :
    pilNoBare st2 := by
  obtain ⟨p, hpre, h2⟩ := except_bind_ok_elim h
  obtain ⟨stA, mA⟩ := p
  obtain ⟨r, hr, h3⟩ := except_bind_ok_elim h2
  obtain ⟨stB, hbat, h4⟩ := except_bind_ok_elim h3
  obtain ⟨stC, htr, h5⟩ := except_bind_ok_elim h4
  have hp := Except.ok.inj h5
  injection hp with hp1 hp2
  rw [← hp1]
  exact translate_code_lines_noBare stB stC htr
    (foldlM_except_invariant pilNoBare _ _ _ _ hbat
      (convertPreRom_noBare st input stA mA hpre hnb)
      (fun acc x res2 hP hs => handle_batch_noBare acc x res2 hs hP))

/-- Claim C7 (amended): for a converted machine with a pc register the
converter emits exactly one bare plookup identity (both selectors
`None`): the final line-lookup identity, whose left expression list holds
the direct references to the registered witness columns and whose right
list the direct references to their fixed columns, in insertion order and
of equal length.  Instruction bodies may contribute further plookups, but
those always receive the instruction flag as their left selector, so the
original "exactly one plookup" reading fails (see the counterexample)
while the bare-plookup form holds. -/
theorem claim_C7 (m : Machine) (rom : Option Rom) (st2 : ASMPILConverter)
    (m3 : Machine) (hpc : m.has_pc = true)
    (hcore : (with_output_count ((m.operations.map
        fun o => (o.params.outputs.map List.length).getD 0).max?.getD 0)).convertCore
        m rom = .ok (st2, m3)) :
    convert_machine m rom = .ok { m3 with pil :=
      m3.pil ++ (st2.pil ++ [lineLookupIdentity st2.line_lookup]) } ∧
    (st2.pil ++ [lineLookupIdentity st2.line_lookup]).filter isBarePlookup =
      [lineLookupIdentity st2.line_lookup] ∧
    lineLookupIdentity st2.line_lookup = .PlookupIdentity 0
      ⟨none, st2.line_lookup.map fun x => direct_reference x.1⟩
      ⟨none, st2.line_lookup.map fun x => direct_reference x.2⟩ ∧
    (st2.line_lookup.map fun x => direct_reference x.1).length =
      (st2.line_lookup.map fun x => direct_reference x.2).length := by
  have hnb : pilNoBare st2 :=
    convertCore_noBare _ m rom st2 m3 hcore
      (fun s hs => absurd hs (List.not_mem_nil s))
  refine ⟨?_, ?_, rfl, by simp⟩
  · have h1 : convert_machine m rom = (with_output_count ((m.operations.map
        fun o => (o.params.outputs.map List.length).getD 0).max?.getD 0)).convert_machine
        m rom := rfl
    rw [h1]
    unfold ASMPILConverter.convert_machine
    rw [hpc, if_neg (by simp), hcore, except_bind_ok]
    show Except.ok (if (st2.pil ++ [lineLookupIdentity st2.line_lookup]).isEmpty
        then m3
        else { m3 with pil := m3.pil ++
          (st2.pil ++ [lineLookupIdentity st2.line_lookup]) }) =
      Except.ok { m3 with pil := m3.pil ++
        (st2.pil ++ [lineLookupIdentity st2.line_lookup]) }
    rw [if_neg (by simp)]
  · rw [List.filter_append]
    have h2 : List.filter isBarePlookup st2.pil = [] := by
      rw [List.filter_eq_nil_iff]
      intro a ha
      rw [hnb a ha]
      simp
    have h3 : List.filter isBarePlookup [lineLookupIdentity st2.line_lookup] =
        [lineLookupIdentity st2.line_lookup] := rfl
    rw [h2, h3]
    rfl

theorem claim_C7_witness :
    ((coreState plookupBodyVM (some labelOnlyRom)).pil ++
        [lineLookupIdentity
          (coreState plookupBodyVM (some labelOnlyRom)).line_lookup]).filter
      isBarePlookup =
    [lineLookupIdentity
      (coreState plookupBodyVM (some labelOnlyRom)).line_lookup] :=
  (claim_C7 plookupBodyVM (some labelOnlyRom)
    (coreState plookupBodyVM (some labelOnlyRom))
    (coreMachine plookupBodyVM (some labelOnlyRom)) rfl rfl).2.1

/-- Counterexample for claim C7 as stated: converting `plookupBodyVM`
(one instruction whose body is a plookup) succeeds and the resulting
machine carries two plookup identities, not one; only one of them is
bare. -/
theorem claim_C7_counterexample :
    isError (convert_machine plookupBodyVM (some labelOnlyRom)) = false ∧
    ((convertResult plookupBodyVM (some labelOnlyRom)).pil.filter
      isPlookup).length = 2 ∧
    ((convertResult plookupBodyVM (some labelOnlyRom)).pil.filter
      isBarePlookup).length = 1 :=
  ⟨rfl, rfl, rfl⟩

end Powdr
